import Mathlib

/-!
Verification development for the XLS-P5 high-level-synthesis compiler fork.

Shallow embedding of:
  * the sequential emitter's static strided counter
    (xls/codegen/sequential_generator.cc),
  * pipeline-schedule bounds construction and the SDC/min-cut register
    comparison (xls/scheduling/pipeline_schedule.cc),
  * dead-code elimination (xls/passes/dce_pass.cc),
  * the P5 AST, its lowering passes, and the AST-to-IR converter
    (xls/p5/ast.h, xls/p5/ir_converter.cc),
  * the JSON AST parser (xls/p5/json_ast_parser.cc).

Machine integers in the source are modelled as `Nat` (all quantities involved
are non-negative and no overflow is reachable in the modelled fragments).
Fatal checks (`XLS_CHECK`, `XLS_LOG(FATAL)`) and error statuses are both
modelled with `Except`: the source distinguishes process aborts from error
returns, but for the claims below only "does not complete normally" matters,
so both are `.error` with distinct messages.
-/

namespace XlsEmb

/-! ## Bits::MinBitCountUnsigned (xls/ir/bits.h)

`Bits::MinBitCountUnsigned(v)` is the number of bits required to represent
the unsigned value `v`: 0 for v = 0, otherwise floor(log2 v) + 1. -/

def minBitCountUnsigned (v : Nat) : Nat :=
  if v = 0 then 0 else Nat.log2 v + 1

/-! ## Sequential generator: AddStaticStridedCounter
(xls/codegen/sequential_generator.cc)

The builder emits Verilog text; we model the counter it describes by the
record below: the bit width of the register, the maximum inclusive value the
comparator tests against, the next-state function of the register
(`set_zero ? 0 : counter + stride`, loaded when `increment | set_zero`), and
the combinational comparator.  `set_zero` is wired to `ready_in` and
`increment` to `last_pipeline_cycle` by `AddSequentialLogic`. -/

structure StridedCounter where
  numCounterBits : Nat
  maxInclusiveValue : Nat
  stride : Nat
  deriving Repr, DecidableEq

namespace StridedCounter

/-- Next value of the counter register (`counter_next` in the source):
`set_zero ? 0 : counter_wire + stride`. -/
def next (c : StridedCounter) (setZero : Bool) (cur : Nat) : Nat :=
  if setZero then 0 else cur + c.stride

/-- The register load enable: `increment | set_zero`. -/
def loadEnable (increment setZero : Bool) : Bool := increment || setZero

/-- The combinational comparator `holds_max_inclusive_value`:
`counter == max_inclusive_value`. -/
def holdsMax (c : StridedCounter) (cur : Nat) : Bool :=
  cur == c.maxInclusiveValue

end StridedCounter

/-- `SequentialModuleBuilder::AddStaticStridedCounter(name, stride,
value_limit_exclusive, clk, set_zero, increment)`.

Returns `Unimplemented` errors for non-positive `value_limit_exclusive` or
`stride`; the `XLS_CHECK_GT(num_counter_bits, 0)` abort is modelled as an
error as well.  The source computes
`max_inclusive_value = (limit-1) - ((limit-1) % stride)` and sizes the
counter with `Bits::MinBitCountUnsigned(max_inclusive_value)`.
`stride` and `value_limit_exclusive` are `int64_t` in the source; callers
pass `loop->stride()` and `loop->stride() * loop->trip_count()`, both
non-negative, so `Nat` with an explicit `≤ 0` test is faithful. -/
def addStaticStridedCounter (stride valueLimitExclusive : Nat) :
    Except String StridedCounter :=
  if valueLimitExclusive ≤ 0 then
    .error "Tried to generate static strided counter with non-positive value_limit_exlusive"
  else if stride ≤ 0 then
    .error "Tried to generate static strided counter with non-positive stride"
  else
    let valueLimitExclusiveMinus := valueLimitExclusive - 1
    let maxInclusiveValue :=
      valueLimitExclusiveMinus - valueLimitExclusiveMinus % stride
    let numCounterBits := minBitCountUnsigned maxInclusiveValue
    if numCounterBits ≤ 0 then
      .error "XLS_CHECK_GT(num_counter_bits, 0) failed"
    else
      .ok { numCounterBits := numCounterBits,
            maxInclusiveValue := maxInclusiveValue,
            stride := stride }

/-- `AddSequentialLogic` calls `AddStaticStridedCounter` with
`stride = loop->stride()` and
`value_limit_exclusive = loop->stride() * loop->trip_count()`,
`set_zero = ready_in`, `increment = last_pipeline_cycle`. -/
def addIndexCounter (stride tripCount : Nat) : Except String StridedCounter :=
  addStaticStridedCounter stride (stride * tripCount)

/-! ## Pipeline scheduling (xls/scheduling/pipeline_schedule.cc)

An IR `FunctionBase` restricted to what scheduling reads: node ids in
topological order, per-node flat bit count, user/operand edges, per-node
delay (the delay estimator), and the return-value node.  For an IR
`Function`, `HasImplicitUse(n)` holds exactly for the return value. -/

structure SchedFunc where
  nodes : List Nat
  width : Nat → Nat
  users : Nat → List Nat
  operands : Nat → List Nat
  delay : Nat → Nat
  ret : Nat

namespace SchedFunc

/-- `FunctionBase::HasImplicitUse` for an IR function: the return value. -/
def hasImplicitUse (f : SchedFunc) (n : Nat) : Prop := n = f.ret

/-- Modelled from the spec: `sched::ScheduleBounds` and its
`PropagateLowerBounds` (xls/scheduling/schedule_bounds.cc) are not under
src/.  Per the spec, the per-node lower bound is the longest delay-weighted
path from any parameter divided by the clock period; the spec's infeasible
example (a 4-op delay-1 chain at clock 1 has computed lower bound 4, i.e.
max lower bound 3) fixes the rounding: a node whose longest path ending at
it has total delay `d > 0` has lower bound `(d - 1) / clock_period`.
`pathDelay` is the longest delay-weighted path ending at each node,
accumulated over the topological order. -/
def pathDelay (f : SchedFunc) : Nat → Nat :=
  f.nodes.foldl
    (fun acc n =>
      let pd := f.delay n + (f.operands n).foldl (fun m u => max m (acc u)) 0
      fun k => if k = n then pd else acc k)
    (fun _ => 0)

/-- Modelled from the spec: a node's schedule lower bound (see `pathDelay`). -/
def lowerBound (f : SchedFunc) (clockPeriod : Nat) (n : Nat) : Nat :=
  (f.pathDelay n - 1) / clockPeriod

/-- `ScheduleBounds::max_lower_bound()`: maximum lower bound over all nodes. -/
def maxLowerBound (f : SchedFunc) (clockPeriod : Nat) : Nat :=
  f.nodes.foldl (fun m n => max m (f.lowerBound clockPeriod n)) 0

end SchedFunc

/-- Scheduling errors surfaced by `ConstructBounds`.  The payloads of
`resourceExhausted` are the two numbers interpolated into the message
"Cannot be scheduled in %d stages. Computed lower bound is %d.". -/
inductive SchedError
  | resourceExhausted (stages : Nat) (computedLowerBound : Nat)
  | infeasibleFinalStage
  | infeasibleFirstStage (node : Nat)
  deriving Repr, DecidableEq

/-- The bounds state `ConstructBounds` returns on success (the parts later
steps read: the lower bounds and the maximum upper bound). -/
structure BoundsResult where
  lb : Nat → Nat
  upperBound : Nat

/-- `ConstructBounds` (xls/scheduling/pipeline_schedule.cc), through its
schedule-length feasibility check: after propagating lower bounds, if a
`schedule_length` is given and is `<= max_lower_bound`, scheduling is
infeasible and a `ResourceExhausted` error reporting
`max_lower_bound + 1` as the computed lower bound is returned; otherwise
the maximum upper bound is `schedule_length - 1` (resp. `max_lower_bound`
when no length is given).  The subsequent first/last-stage tightening
rewrites bounds but returns no further value read by the claims below. -/
def constructBounds (f : SchedFunc) (clockPeriod : Nat)
    (scheduleLength : Option Nat) : Except SchedError BoundsResult :=
  let maxLB := f.maxLowerBound clockPeriod
  match scheduleLength with
  | some len =>
      if len ≤ maxLB then
        .error (.resourceExhausted len (maxLB + 1))
      else
        .ok { lb := f.lowerBound clockPeriod, upperBound := len - 1 }
  | none => .ok { lb := f.lowerBound clockPeriod, upperBound := maxLB }

/-! ### SDC scheduling vs. min-cut (claim C1)

`SearchPathsJustExceedClockPeriod` is embedded from the source: a DFS from
`src` through user edges accumulating combinational delay; the first node
at which the accumulated end time exceeds the clock period is recorded and
the branch is cut.  The recursion is well-founded because the IR graph is
acyclic; the embedding uses fuel `|nodes| + 1`, enough for any simple path. -/

def sjecpAux (f : SchedFunc) (clockPeriodPs : Nat) :
    Nat → Nat → Nat → List Nat
  | 0, _, _ => []
  | fuel + 1, node, nodeStartTime =>
    let nodeEndTime := nodeStartTime + f.delay node
    if clockPeriodPs < nodeEndTime then [node]
    else
      (f.users node).foldl
        (fun acc u => acc ++ sjecpAux f clockPeriodPs fuel u nodeEndTime) []

def searchPathsJustExceedClockPeriod (f : SchedFunc) (src : Nat)
    (clockPeriodPs : Nat) : List Nat :=
  sjecpAux f clockPeriodPs (f.nodes.length + 1) src 0

/-- The cycle-assignment constraints common to every schedule the solvers
produce: per-node bounds, per-edge precedence (`cycle[node] <=
cycle[user]`), and the long-path constraints `cycle[dst] >= cycle[src] + 1`
for every pair found by `SearchPathsJustExceedClockPeriod`. -/
def schedFeasible (f : SchedFunc) (lb ub : Nat → Nat) (clockPeriodPs : Nat)
    (c : Nat → Nat) : Prop :=
  (∀ n ∈ f.nodes, lb n ≤ c n ∧ c n ≤ ub n) ∧
  (∀ n ∈ f.nodes, ∀ u ∈ f.users n, c n ≤ c u) ∧
  (∀ s ∈ f.nodes, ∀ d ∈ searchPathsJustExceedClockPeriod f s clockPeriodPs,
      c s + 1 ≤ c d)

/-- A point of the linear program built by `ScheduleToMinimizeRegistersSDC`:
a cycle variable per node, a lifetime variable per node, and the cycle of
the artificial sink node. -/
structure LPPoint where
  cycle : Nat → Nat
  lifetime : Nat → Nat
  sink : Nat

/-- Feasibility for the SDC linear program (integral points).  Mirrors the
constraints the source adds: variable bounds `lb(n) <= cycle(n) <= ub(n)`
and `0 <= lifetime(n) <= bounds->max_lower_bound()` (`cap` below); for
every def-use edge `cycle[node] <= cycle[user]` and
`cycle[user] - cycle[node] - lifetime[node] <= 0`, with the same pair of
constraints against the sink for nodes with an implicit use; and the
long-path constraints. -/
def lpFeasible (f : SchedFunc) (lb ub : Nat → Nat) (cap clockPeriodPs : Nat)
    (p : LPPoint) : Prop :=
  schedFeasible f lb ub clockPeriodPs p.cycle ∧
  (∀ n ∈ f.nodes, p.lifetime n ≤ cap) ∧
  (∀ n ∈ f.nodes, ∀ u ∈ f.users n, p.cycle u ≤ p.cycle n + p.lifetime n) ∧
  (∀ n ∈ f.nodes, f.hasImplicitUse n →
      p.cycle n ≤ p.sink ∧ p.sink ≤ p.cycle n + p.lifetime n)

instance (f : SchedFunc) (lb ub : Nat → Nat) (clockPeriodPs : Nat)
    (c : Nat → Nat) : Decidable (schedFeasible f lb ub clockPeriodPs c) := by
  unfold schedFeasible; infer_instance

instance (f : SchedFunc) (lb ub : Nat → Nat) (cap clockPeriodPs : Nat)
    (p : LPPoint) : Decidable (lpFeasible f lb ub cap clockPeriodPs p) := by
  unfold lpFeasible SchedFunc.hasImplicitUse; infer_instance

/-- The SDC objective `Σ width(n) · lifetime(n)`. -/
def lpObjective (f : SchedFunc) (p : LPPoint) : Nat :=
  (f.nodes.map (fun n => f.width n * p.lifetime n)).sum

/-- The latest cycle in which a node's value is used
(`latest_use` in `CountInteriorPipelineRegisters`): the maximum of the
node's own cycle and its users' cycles. -/
def latestUse (f : SchedFunc) (c : Nat → Nat) (n : Nat) : Nat :=
  (f.users n).foldl (fun m u => max m (c u)) (c n)

/-- `CountInteriorPipelineRegisters`: `Σ width(n) · (latest_use(n) -
cycle(n))` over all nodes of the function. -/
def countInteriorPipelineRegisters (f : SchedFunc) (c : Nat → Nat) : Nat :=
  (f.nodes.map (fun n => f.width n * (latestUse f c n - c n))).sum

/-- Lifting a plain schedule to an SDC LP point: minimal lifetimes
(`latest_use - cycle`), sink at the return value's cycle. -/
def liftSchedule (f : SchedFunc) (c : Nat → Nat) : LPPoint :=
  { cycle := c
    lifetime := fun n => latestUse f c n - c n
    sink := c f.ret }

/-! ## Dead-code elimination (xls/passes/dce_pass.cc)

A `FunctionBase` as DCE reads it: a list of nodes, each with an id, its
operand ids, whether it has an implicit use, and whether its op is
side-effecting (`OpIsSideEffecting`, e.g. `Send`/`Receive`/`Cover`).
Users are derived from operand lists (XLS keeps them mutually consistent
and deduplicated); `RemoveNode` drops the node, which also removes it from
its operands' user lists. -/

namespace Dce

structure NodeData where
  id : Nat
  operands : List Nat
  implicitUse : Bool
  sideEffecting : Bool
  deriving Repr, DecidableEq

structure Graph where
  nodes : List NodeData
  deriving Repr, DecidableEq

/-- `Node::users()`: the (deduplicated) nodes having `n` among their
operands. -/
def users (g : Graph) (n : Nat) : List Nat :=
  (g.nodes.filter (fun m => m.operands.contains n)).map (fun m => m.id)

def find? (g : Graph) (n : Nat) : Option NodeData :=
  g.nodes.find? (fun d => d.id == n)

/-- `is_deletable` in `RunDce`: no implicit use and not side-effecting. -/
def isDeletable (d : NodeData) : Bool :=
  !d.implicitUse && !d.sideEffecting

/-- `FunctionBase::RemoveNode`. -/
def removeNode (g : Graph) (n : Nat) : Graph :=
  ⟨g.nodes.filter (fun d => d.id ≠ n)⟩

/-- The `unique_operands` set: operands of the node in first-occurrence
order, each once. -/
def uniqueOperands (ops : List Nat) : List Nat := ops.dedup

/-- One worklist step of `RunDce`'s main loop, and the loop itself.
`fuel` only serves termination: every node is pushed at most once in an
acyclic graph, so `(|nodes|+1)^2` steps are never exhausted.
State: current graph, worklist (front = next), list of reported-deleted
ids, `removed_count`. -/
def runDceAux (dryRun : Bool) :
    Nat → Graph → List Nat → List Nat → Nat → Graph × List Nat × Nat
  | 0, g, _, del, cnt => (g, del, cnt)
  | _ + 1, g, [], del, cnt => (g, del, cnt)
  | fuel + 1, g, node :: wl, del, cnt =>
    let ops := ((find? g node).map (fun d => d.operands)).getD []
    let pushes := (uniqueOperands ops).filter (fun o =>
      (users g o).length == 1 &&
      (((find? g o).map isDeletable).getD false))
    let g' := if dryRun then g else removeNode g node
    let cnt' := if dryRun then cnt else cnt + 1
    runDceAux dryRun fuel g' (wl ++ pushes) (del ++ [node]) cnt'

/-- `RunDce(f, dry_run, deleted)`: initial worklist = nodes with no users
that are deletable (in node-list order); returns the final function, the
reported deleted set, and the changed flag `removed_count > 0`. -/
def runDce (g : Graph) (dryRun : Bool) : Graph × List Nat × Bool :=
  let initWl := (g.nodes.filter (fun d =>
    (users g d.id).isEmpty && isDeletable d)).map (fun d => d.id)
  let fuel := (g.nodes.length + 1) * (g.nodes.length + 1)
  let r := runDceAux dryRun fuel g initWl [] 0
  (r.1, r.2.1, decide (0 < r.2.2))

/-- A node id is backed by a deletable node of graph `g0`. -/
def deletableIn (g0 : Graph) (id : Nat) : Prop :=
  ∃ d ∈ g0.nodes, d.id = id ∧ isDeletable d = true

instance (g0 : Graph) (id : Nat) : Decidable (deletableIn g0 id) := by
  unfold deletableIn; infer_instance

/-- The DCE counterexample graph: node 1 feeds dead nodes 2 and 3;
node 4 is the (implicitly used) root.  All of 1, 2, 3 are dead. -/
def exG : Graph :=
  ⟨[⟨1, [], false, false⟩, ⟨2, [1], false, false⟩,
    ⟨3, [1], false, false⟩, ⟨4, [], true, false⟩]⟩

end Dce

/-- The spec's infeasibility scenario (§8 scenario 6): a 4-operator chain,
every operator of delay 1, node `n + 1` consuming node `n`. -/
def chain4 : SchedFunc :=
  { nodes := [1, 2, 3, 4]
    width := fun _ => 8
    users := fun n => if n = 1 then [2] else if n = 2 then [3]
      else if n = 3 then [4] else []
    operands := fun n => if n = 1 then [] else if n ≤ 4 then [n - 1] else []
    delay := fun _ => 1
    ret := 4 }

/-- A two-node function (8-bit parameter 0 feeding return value 1) used to
instantiate the SDC-vs-min-cut comparison at a concrete input. -/
def sdcWitFunc : SchedFunc :=
  { nodes := [0, 1]
    width := fun _ => 8
    users := fun n => if n = 0 then [1] else []
    operands := fun n => if n = 1 then [0] else []
    delay := fun _ => 0
    ret := 1 }

/-- A single-stage LP point for `sdcWitFunc`. -/
def sdcWitPoint : LPPoint := ⟨fun _ => 0, fun _ => 0, 0⟩

/-! ## The P5 AST (xls/p5/ast.h)

The C++ AST is an arena of mutable nodes with parent pointers; the lowering
passes rewrite it in place through `ReplaceChild`.  The embedding is a pure
tree: each rewrite builds the replacement subtree.  `FakeVarDef`s are
module-level named definitions (deduplicated by name in
`Module::AddFakeVarDef`); a `VarRefExpr` refers to its def by name. -/

namespace P5

/-- `OpKind` (xls/p5/keywords.h). -/
inductive OpKind
  | logicalAnd | logicalOr
  | equal | notEqual | lessEqual | lessThan | greaterEqual | greaterThan
  | bitwiseAnd | bitwiseOr | leftShift | rightShift
  | plus | minus | mul | div
  | logicalNot | bitwiseNot
  deriving Repr, DecidableEq

/-- `NameRefExpr::Annotation`: `(size, is_global)`. -/
structure NameAnno where
  size : Nat
  isGlobal : Bool
  deriving Repr, DecidableEq

/-- `FieldAccessExpr::Annotation`: `(size, is_global, struct_var_name,
offset)`. -/
structure FieldAnno where
  size : Nat
  isGlobal : Bool
  structVarName : String
  offset : Nat
  deriving Repr, DecidableEq

/-- Expression nodes (`Expr` subclasses in xls/p5/ast.h).  `Lvalue` is the
subset {nameRef, varRef, fieldAccess, arrIndex, bitSlice}. -/
inductive Expr
  | nameRef (name : String) (anno : Option NameAnno)
  | varRef (defName : String)
  | fieldAccess (source : Expr) (fieldName : String) (anno : Option FieldAnno)
  | arrIndex (target : Expr) (idx : Nat)
  | bitSlice (target : Expr) (maxBit minBit : Nat)
  | castTo (e : Expr) (castSize : Nat) (castName : String)
  | unaryOp (op : OpKind) (operand : Expr)
  | binaryOp (op : OpKind) (lhs rhs : Expr)
  | intLiteral (value : Nat) (size : Nat) (litName : Option String)
  | longIntLiteral (words : List Nat)
  | builtinCall (callee : String) (args : List Expr)
  deriving Repr

/-- Statement nodes (`Stmt` subclasses). -/
inductive Stmt
  | assign (lhs rhs : Expr)
  | ifStmt (cond : Expr) (thenBlock : Stmt)
  | ifElse (cond : Expr) (thenBlock elseBlock : Stmt)
  | block (blockName : String) (stmts : List Stmt)
  | exprEval (e : Expr)
  | ret
  | nop
  deriving Repr

mutual

/-- Structural equality on expressions (the pointer identity of the arena
is replaced by structure; used only for the converter's expression-value
cache). -/
def Expr.beq : Expr → Expr → Bool
  | .nameRef n a, .nameRef n' a' => n == n' && a == a'
  | .varRef d, .varRef d' => d == d'
  | .fieldAccess s f a, .fieldAccess s' f' a' =>
      Expr.beq s s' && f == f' && a == a'
  | .arrIndex t i, .arrIndex t' i' => Expr.beq t t' && i == i'
  | .bitSlice t h l, .bitSlice t' h' l' => Expr.beq t t' && h == h' && l == l'
  | .castTo e s n, .castTo e' s' n' => Expr.beq e e' && s == s' && n == n'
  | .unaryOp o e, .unaryOp o' e' => o == o' && Expr.beq e e'
  | .binaryOp o l r, .binaryOp o' l' r' =>
      o == o' && Expr.beq l l' && Expr.beq r r'
  | .intLiteral v s n, .intLiteral v' s' n' => v == v' && s == s' && n == n'
  | .longIntLiteral w, .longIntLiteral w' => w == w'
  | .builtinCall c a, .builtinCall c' a' => c == c' && Expr.beqList a a'
  | _, _ => false

def Expr.beqList : List Expr → List Expr → Bool
  | [], [] => true
  | x :: xs, y :: ys => Expr.beq x y && Expr.beqList xs ys
  | _, _ => false

end

instance : BEq Expr := ⟨Expr.beq⟩

/-- `FakeVarDef`: name, optional bit width, globality. -/
structure FakeVarDef where
  name : String
  size : Option Nat
  isGlobal : Bool
  deriving Repr, DecidableEq

/-- `FakeVarDef::TryUpdateSize`: widening only; narrowing is refused with a
warning. -/
def tryUpdateSize (cur : Option Nat) (newSize : Nat) : Option Nat :=
  match cur with
  | some s => if newSize < s then some s else some newSize
  | none => some newSize

/-- The def table of a module (`Module::name2def`).  `AddFakeVarDef`
deduplicates by name, updating the size of an existing def via
`TryUpdateSize` when a size is supplied. -/
def addFakeVarDef (defs : List FakeVarDef) (name : String)
    (size : Option Nat) : List FakeVarDef :=
  if defs.any (fun d => d.name == name) then
    defs.map (fun d =>
      if d.name == name then
        match size with
        | some s => { d with size := tryUpdateSize d.size s }
        | none => d
      else d)
  else
    defs ++ [⟨name, size, false⟩]

/-- `FakeVarDef::SetIsGlobal` on the def named `name`. -/
def setIsGlobal (defs : List FakeVarDef) (name : String) (g : Bool) :
    List FakeVarDef :=
  defs.map (fun d => if d.name == name then { d with isGlobal := g } else d)

def lookupDef (defs : List FakeVarDef) (name : String) : Option FakeVarDef :=
  defs.find? (fun d => d.name == name)

/-- An AST `Module`: the body statement block and the def table. -/
structure Module where
  body : Stmt
  defs : List FakeVarDef
  deriving Repr

mutual

/-- All subexpressions of an expression, the expression itself included. -/
def Expr.subexprs : Expr → List Expr
  | .nameRef n a => [.nameRef n a]
  | .varRef d => [.varRef d]
  | .fieldAccess s f a => .fieldAccess s f a :: s.subexprs
  | .arrIndex t i => .arrIndex t i :: t.subexprs
  | .bitSlice t h l => .bitSlice t h l :: t.subexprs
  | .castTo e s n => .castTo e s n :: e.subexprs
  | .unaryOp o e => .unaryOp o e :: e.subexprs
  | .binaryOp o l r => .binaryOp o l r :: (l.subexprs ++ r.subexprs)
  | .intLiteral v s n => [.intLiteral v s n]
  | .longIntLiteral w => [.longIntLiteral w]
  | .builtinCall c a => .builtinCall c a :: Expr.subexprsList a

def Expr.subexprsList : List Expr → List Expr
  | [] => []
  | e :: es => e.subexprs ++ Expr.subexprsList es

end

mutual

/-- Every expression occurring in a statement, subexpressions included. -/
def Stmt.allExprs : Stmt → List Expr
  | .assign l r => l.subexprs ++ r.subexprs
  | .ifStmt c t => c.subexprs ++ t.allExprs
  | .ifElse c t e => c.subexprs ++ t.allExprs ++ e.allExprs
  | .block _ stmts => Stmt.allExprsList stmts
  | .exprEval e => e.subexprs
  | .ret => []
  | .nop => []

def Stmt.allExprsList : List Stmt → List Expr
  | [] => []
  | s :: ss => s.allExprs ++ Stmt.allExprsList ss

end

/-! ### Structural sub-statements (for stating invariants about `if`s and
blocks). -/

mutual

/-- Every statement occurring in a statement, itself included. -/
def Stmt.allStmts : Stmt → List Stmt
  | .assign l r => [.assign l r]
  | .ifStmt c t => .ifStmt c t :: t.allStmts
  | .ifElse c t e => .ifElse c t e :: (t.allStmts ++ e.allStmts)
  | .block n stmts => .block n stmts :: Stmt.allStmtsList stmts
  | .exprEval e => [.exprEval e]
  | .ret => [.ret]
  | .nop => [.nop]

def Stmt.allStmtsList : List Stmt → List Stmt
  | [] => []
  | s :: ss => s.allStmts ++ Stmt.allStmtsList ss

end

/-! ### Lowering passes (xls/p5/ir_converter.cc)

Each pass is a `VisitAll`-driven in-place rewrite in the source.  The
`VisitAll` default traversal (declared in xls/p5/ast.h; its definition is
not under src/) is modelled from the spec: a depth-first walk visiting
every child.  A pass's state is the module's def table plus the set of
`FakeVarDef`s the pass collected into its lowering info (`defs` in
`FieldAccessLoweringInfo` etc.), kept as a name list.

All fatal checks (`XLS_CHECK`) are `.error`.  Arithmetic on bit indices is
`uint32_t` in the source; the embedding uses `Nat` with truncated
subtraction, which agrees on all parser-produced inputs (the parser checks
`max_bit >= min_bit`). -/

/-- Insert into a collected-defs set (C++ `std::set` of def pointers;
defs are deduplicated by name). -/
def insertName (l : List String) (n : String) : List String :=
  if l.contains n then l else l ++ [n]

/-- Pass state: the module's def table and the pass's collected defs. -/
abbrev LowSt := List FakeVarDef × List String

/-- `GetInnerStructVarAnnotation`: walk `expr->source()` through the
field-access chain to the innermost `NameRefExpr` and return its name and
annotated size; any other node kind, or a missing annotation, is a fatal
check. -/
def innerStructWalk : Expr → Except String (String × Nat)
  | .nameRef n anno =>
      match anno with
      | some a => .ok (n, a.size)
      | none => .error "GetInnerStructVarAnnotation: annotation missing"
  | .fieldAccess s _ _ => innerStructWalk s
  | _ => .error "GetInnerStructVarAnnotation: unsupported source kind"

mutual

/-- `FieldAccessElimination`: a `FieldAccessExpr` annotated with
`(size, is_global, struct_var_name, offset)` becomes
`VarRef(struct_var)[offset+size-1 : offset]`; the def for the struct
variable is added with the innermost `NameRef`'s annotated size and is
collected.  The replaced chain is not descended into. -/
def faElimExpr (st : LowSt) : Expr → Except String (Expr × LowSt)
  | .fieldAccess src _fname anno => do
      match anno with
      | none => .error "FieldAccessElimination: annotation missing"
      | some a => do
          let (innerName, innerSize) ← innerStructWalk src
          if innerName = a.structVarName then
            let defs := setIsGlobal
              (addFakeVarDef st.1 a.structVarName (some innerSize))
              a.structVarName a.isGlobal
            .ok (.bitSlice (.varRef a.structVarName)
                  (a.offset + a.size - 1) a.offset,
                 (defs, insertName st.2 a.structVarName))
          else
            .error "FieldAccessElimination: inner_name != struct_var_name"
  | .arrIndex t i => do
      let (t', st') ← faElimExpr st t
      .ok (.arrIndex t' i, st')
  | .bitSlice t h l => do
      let (t', st') ← faElimExpr st t
      .ok (.bitSlice t' h l, st')
  | .castTo e s n => do
      let (e', st') ← faElimExpr st e
      .ok (.castTo e' s n, st')
  | .unaryOp o e => do
      let (e', st') ← faElimExpr st e
      .ok (.unaryOp o e', st')
  | .binaryOp o l r => do
      let (l', st') ← faElimExpr st l
      let (r', st'') ← faElimExpr st' r
      .ok (.binaryOp o l' r', st'')
  | .builtinCall c args => do
      let (args', st') ← faElimExprList st args
      .ok (.builtinCall c args', st')
  | .nameRef n a => .ok (.nameRef n a, st)
  | .varRef d => .ok (.varRef d, st)
  | .intLiteral v s n => .ok (.intLiteral v s n, st)
  | .longIntLiteral w => .ok (.longIntLiteral w, st)

def faElimExprList (st : LowSt) : List Expr →
    Except String (List Expr × LowSt)
  | [] => .ok ([], st)
  | e :: es => do
      let (e', st') ← faElimExpr st e
      let (es', st'') ← faElimExprList st' es
      .ok (e' :: es', st'')

end

mutual

def faElimStmt (st : LowSt) : Stmt → Except String (Stmt × LowSt)
  | .assign l r => do
      let (l', st') ← faElimExpr st l
      let (r', st'') ← faElimExpr st' r
      .ok (.assign l' r', st'')
  | .ifStmt c t => do
      let (c', st') ← faElimExpr st c
      let (t', st'') ← faElimStmt st' t
      .ok (.ifStmt c' t', st'')
  | .ifElse c t e => do
      let (c', st') ← faElimExpr st c
      let (t', st'') ← faElimStmt st' t
      let (e', st''') ← faElimStmt st'' e
      .ok (.ifElse c' t' e', st''')
  | .block n stmts => do
      let (stmts', st') ← faElimStmtList st stmts
      .ok (.block n stmts', st')
  | .exprEval e => do
      let (e', st') ← faElimExpr st e
      .ok (.exprEval e', st')
  | .ret => .ok (.ret, st)
  | .nop => .ok (.nop, st)

def faElimStmtList (st : LowSt) : List Stmt →
    Except String (List Stmt × LowSt)
  | [] => .ok ([], st)
  | s :: ss => do
      let (s', st') ← faElimStmt st s
      let (ss', st'') ← faElimStmtList st' ss
      .ok (s' :: ss', st'')

end

/-- `GetRefName`: the name of a `NameRef` or the def name of a `VarRef`;
anything else is a fatal check. -/
def getRefName : Expr → Except String String
  | .nameRef n _ => .ok n
  | .varRef d => .ok d
  | _ => .error "GetRefName: unsupported kind"

mutual

/-- `ArrayAccessElimination`: `arr[k]` (target a `NameRefExpr`) becomes a
`VarRef` named `arr<delim>k` with the target's annotated size and
globality; the new def is collected.  A non-`NameRef` target or a missing
annotation is a fatal check. -/
def aaElimExpr (delim : String) (st : LowSt) :
    Expr → Except String (Expr × LowSt)
  | .arrIndex t i => do
      match t with
      | .nameRef n anno =>
          match anno with
          | some a =>
              let newName := n ++ delim ++ toString i
              let defs := setIsGlobal (addFakeVarDef st.1 newName (some a.size))
                newName a.isGlobal
              .ok (.varRef newName, (defs, insertName st.2 newName))
          | none => .error "ArrayAccessElimination: annotation missing"
      | _ => .error "ArrayAccessElimination: target is not a NameRef"
  | .fieldAccess s f a => do
      let (s', st') ← aaElimExpr delim st s
      .ok (.fieldAccess s' f a, st')
  | .bitSlice t h l => do
      let (t', st') ← aaElimExpr delim st t
      .ok (.bitSlice t' h l, st')
  | .castTo e s n => do
      let (e', st') ← aaElimExpr delim st e
      .ok (.castTo e' s n, st')
  | .unaryOp o e => do
      let (e', st') ← aaElimExpr delim st e
      .ok (.unaryOp o e', st')
  | .binaryOp o l r => do
      let (l', st') ← aaElimExpr delim st l
      let (r', st'') ← aaElimExpr delim st' r
      .ok (.binaryOp o l' r', st'')
  | .builtinCall c args => do
      let (args', st') ← aaElimExprList delim st args
      .ok (.builtinCall c args', st')
  | .nameRef n a => .ok (.nameRef n a, st)
  | .varRef d => .ok (.varRef d, st)
  | .intLiteral v s n => .ok (.intLiteral v s n, st)
  | .longIntLiteral w => .ok (.longIntLiteral w, st)

def aaElimExprList (delim : String) (st : LowSt) : List Expr →
    Except String (List Expr × LowSt)
  | [] => .ok ([], st)
  | e :: es => do
      let (e', st') ← aaElimExpr delim st e
      let (es', st'') ← aaElimExprList delim st' es
      .ok (e' :: es', st'')

end

mutual

def aaElimStmt (delim : String) (st : LowSt) :
    Stmt → Except String (Stmt × LowSt)
  | .assign l r => do
      let (l', st') ← aaElimExpr delim st l
      let (r', st'') ← aaElimExpr delim st' r
      .ok (.assign l' r', st'')
  | .ifStmt c t => do
      let (c', st') ← aaElimExpr delim st c
      let (t', st'') ← aaElimStmt delim st' t
      .ok (.ifStmt c' t', st'')
  | .ifElse c t e => do
      let (c', st') ← aaElimExpr delim st c
      let (t', st'') ← aaElimStmt delim st' t
      let (e', st''') ← aaElimStmt delim st'' e
      .ok (.ifElse c' t' e', st''')
  | .block n stmts => do
      let (stmts', st') ← aaElimStmtList delim st stmts
      .ok (.block n stmts', st')
  | .exprEval e => do
      let (e', st') ← aaElimExpr delim st e
      .ok (.exprEval e', st')
  | .ret => .ok (.ret, st)
  | .nop => .ok (.nop, st)

def aaElimStmtList (delim : String) (st : LowSt) : List Stmt →
    Except String (List Stmt × LowSt)
  | [] => .ok ([], st)
  | s :: ss => do
      let (s', st') ← aaElimStmt delim st s
      let (ss', st'') ← aaElimStmtList delim st' ss
      .ok (s' :: ss', st'')

end

mutual

/-- `ValidAndVaildSetElimination::VisitBuiltinCallExpr` and the default
expression traversal.  A `_valid(x)` call (argument a `NameRef` or
`VarRef`) is replaced by a `VarRef` to a fresh 1-bit def named
`x<delim>valid`; globality comes from the `NameRef` annotation (a missing
annotation is a fatal check) or from the referenced def.  The source then
visits the original call's arguments (even when the call was replaced), so
argument rewrites inside a replaced `_valid` affect only the pass state. -/
def validElimExpr (delim : String) (st : LowSt) :
    Expr → Except String (Expr × LowSt)
  | .builtinCall c args =>
      if c = "_valid" then
        match args with
        | [arg0] =>
            (match arg0 with
            | .nameRef n anno =>
                match anno with
                | some a => do
                    let newName := n ++ delim ++ "valid"
                    let defs := setIsGlobal
                      (addFakeVarDef st.1 newName (some 1)) newName a.isGlobal
                    let (_, st') ← validElimExprList delim
                      (defs, insertName st.2 newName) [arg0]
                    .ok (.varRef newName, st')
                | none =>
                    .error "ValidAndVaildSetElimination: annotation missing"
            | .varRef d => do
                let newName := d ++ delim ++ "valid"
                let g := ((lookupDef st.1 d).map (fun x => x.isGlobal)).getD
                  false
                let defs := setIsGlobal
                  (addFakeVarDef st.1 newName (some 1)) newName g
                let (_, st') ← validElimExprList delim
                  (defs, insertName st.2 newName) [arg0]
                .ok (.varRef newName, st')
            | _ => .error "ValidAndVaildSetElimination: bad _valid argument")
        | _ => .error "ValidAndVaildSetElimination: _valid expects 1 argument"
      else do
        let (args', st') ← validElimExprList delim st args
        .ok (.builtinCall c args', st')
  | .fieldAccess s f a => do
      let (s', st') ← validElimExpr delim st s
      .ok (.fieldAccess s' f a, st')
  | .arrIndex t i => do
      let (t', st') ← validElimExpr delim st t
      .ok (.arrIndex t' i, st')
  | .bitSlice t h l => do
      let (t', st') ← validElimExpr delim st t
      .ok (.bitSlice t' h l, st')
  | .castTo e s n => do
      let (e', st') ← validElimExpr delim st e
      .ok (.castTo e' s n, st')
  | .unaryOp o e => do
      let (e', st') ← validElimExpr delim st e
      .ok (.unaryOp o e', st')
  | .binaryOp o l r => do
      let (l', st') ← validElimExpr delim st l
      let (r', st'') ← validElimExpr delim st' r
      .ok (.binaryOp o l' r', st'')
  | .nameRef n a => .ok (.nameRef n a, st)
  | .varRef d => .ok (.varRef d, st)
  | .intLiteral v s n => .ok (.intLiteral v s n, st)
  | .longIntLiteral w => .ok (.longIntLiteral w, st)

def validElimExprList (delim : String) (st : LowSt) : List Expr →
    Except String (List Expr × LowSt)
  | [] => .ok ([], st)
  | e :: es => do
      let (e', st') ← validElimExpr delim st e
      let (es', st'') ← validElimExprList delim st' es
      .ok (e' :: es', st'')

end

mutual

/-- `ValidAndVaildSetElimination::VisitExprEvalStmt` and the default
statement traversal: every `ExprEvalStmt`'s expression must be a
`BuiltinCallExpr` (fatal check); `_valid_set(x, v)` (x a `NameRef` or
`VarRef`, fatal check otherwise, 2 arguments) becomes the assignment
`x<delim>valid = v` (for a `NameRef` x, with a fresh 1-bit def) or `x = v`
(for a `VarRef` x, reusing its def); the assignment's right-hand side is
not descended into. -/
def validElimStmt (delim : String) (st : LowSt) :
    Stmt → Except String (Stmt × LowSt)
  | .assign l r => do
      let (l', st') ← validElimExpr delim st l
      let (r', st'') ← validElimExpr delim st' r
      .ok (.assign l' r', st'')
  | .ifStmt c t => do
      let (c', st') ← validElimExpr delim st c
      let (t', st'') ← validElimStmt delim st' t
      .ok (.ifStmt c' t', st'')
  | .ifElse c t e => do
      let (c', st') ← validElimExpr delim st c
      let (t', st'') ← validElimStmt delim st' t
      let (e', st''') ← validElimStmt delim st'' e
      .ok (.ifElse c' t' e', st''')
  | .block n stmts => do
      let (stmts', st') ← validElimStmtList delim st stmts
      .ok (.block n stmts', st')
  | .exprEval e =>
      match e with
      | .builtinCall c args =>
          if c = "_valid_set" then
            match args with
            | [arg0, arg1] =>
                (match arg0 with
                | .nameRef n anno =>
                    match anno with
                    | some a =>
                        let newName := n ++ delim ++ "valid"
                        let defs := setIsGlobal
                          (addFakeVarDef st.1 newName (some 1)) newName
                          a.isGlobal
                        .ok (.assign (.varRef newName) arg1,
                             (defs, insertName st.2 newName))
                    | none =>
                        .error "ValidAndVaildSetElimination: annotation missing"
                | .varRef d =>
                    .ok (.assign (.varRef d) arg1, (st.1, insertName st.2 d))
                | _ =>
                    .error "ValidAndVaildSetElimination: bad _valid_set argument")
            | _ =>
                .error "ValidAndVaildSetElimination: _valid_set expects 2 arguments"
          else do
            let (e', st') ← validElimExpr delim st (.builtinCall c args)
            .ok (.exprEval e', st')
      | _ => .error "ValidAndVaildSetElimination: ExprEval of a non-builtin"
  | .ret => .ok (.ret, st)
  | .nop => .ok (.nop, st)

def validElimStmtList (delim : String) (st : LowSt) : List Stmt →
    Except String (List Stmt × LowSt)
  | [] => .ok ([], st)
  | s :: ss => do
      let (s', st') ← validElimStmt delim st s
      let (ss', st'') ← validElimStmtList delim st' ss
      .ok (s' :: ss', st'')

end

mutual

/-- `NameRefElimation`: every remaining `NameRefExpr` becomes a `VarRef`
to a def deduplicated by name; a missing annotation is defaulted to
`(32, global)` with a warning. -/
def nrElimExpr (st : LowSt) : Expr → Except String (Expr × LowSt)
  | .nameRef n anno =>
      let a := anno.getD ⟨32, true⟩
      let defs := setIsGlobal (addFakeVarDef st.1 n (some a.size)) n a.isGlobal
      .ok (.varRef n, (defs, insertName st.2 n))
  | .fieldAccess s f a => do
      let (s', st') ← nrElimExpr st s
      .ok (.fieldAccess s' f a, st')
  | .arrIndex t i => do
      let (t', st') ← nrElimExpr st t
      .ok (.arrIndex t' i, st')
  | .bitSlice t h l => do
      let (t', st') ← nrElimExpr st t
      .ok (.bitSlice t' h l, st')
  | .castTo e s n => do
      let (e', st') ← nrElimExpr st e
      .ok (.castTo e' s n, st')
  | .unaryOp o e => do
      let (e', st') ← nrElimExpr st e
      .ok (.unaryOp o e', st')
  | .binaryOp o l r => do
      let (l', st') ← nrElimExpr st l
      let (r', st'') ← nrElimExpr st' r
      .ok (.binaryOp o l' r', st'')
  | .builtinCall c args => do
      let (args', st') ← nrElimExprList st args
      .ok (.builtinCall c args', st')
  | .varRef d => .ok (.varRef d, st)
  | .intLiteral v s n => .ok (.intLiteral v s n, st)
  | .longIntLiteral w => .ok (.longIntLiteral w, st)

def nrElimExprList (st : LowSt) : List Expr →
    Except String (List Expr × LowSt)
  | [] => .ok ([], st)
  | e :: es => do
      let (e', st') ← nrElimExpr st e
      let (es', st'') ← nrElimExprList st' es
      .ok (e' :: es', st'')

end

mutual

def nrElimStmt (st : LowSt) : Stmt → Except String (Stmt × LowSt)
  | .assign l r => do
      let (l', st') ← nrElimExpr st l
      let (r', st'') ← nrElimExpr st' r
      .ok (.assign l' r', st'')
  | .ifStmt c t => do
      let (c', st') ← nrElimExpr st c
      let (t', st'') ← nrElimStmt st' t
      .ok (.ifStmt c' t', st'')
  | .ifElse c t e => do
      let (c', st') ← nrElimExpr st c
      let (t', st'') ← nrElimStmt st' t
      let (e', st''') ← nrElimStmt st'' e
      .ok (.ifElse c' t' e', st''')
  | .block n stmts => do
      let (stmts', st') ← nrElimStmtList st stmts
      .ok (.block n stmts', st')
  | .exprEval e => do
      let (e', st') ← nrElimExpr st e
      .ok (.exprEval e', st')
  | .ret => .ok (.ret, st)
  | .nop => .ok (.nop, st)

def nrElimStmtList (st : LowSt) : List Stmt →
    Except String (List Stmt × LowSt)
  | [] => .ok ([], st)
  | s :: ss => do
      let (s', st') ← nrElimStmt st s
      let (ss', st'') ← nrElimStmtList st' ss
      .ok (s' :: ss', st'')

end

mutual

/-- `UselessBlockElimination` (fixed point): a block directly inside a
block is spliced into its parent.  The source iterates one splice level at
a time until no change; splicing bottom-up reaches the same fixed point
(statement order is preserved by each splice). -/
def unrollBlocks : Stmt → Stmt
  | .block n stmts => .block n (unrollBlocksList stmts)
  | .ifStmt c t => .ifStmt c (unrollBlocks t)
  | .ifElse c t e => .ifElse c (unrollBlocks t) (unrollBlocks e)
  | .assign l r => .assign l r
  | .exprEval e => .exprEval e
  | .ret => .ret
  | .nop => .nop

def unrollBlocksList : List Stmt → List Stmt
  | [] => []
  | s :: ss =>
      match unrollBlocks s with
      | .block _ inner => inner ++ unrollBlocksList ss
      | s' => s' :: unrollBlocksList ss

end

mutual

/-- One traversal of `NestedIfStmtElimination`: an `IfStmt` whose
`then_block` is itself an `IfStmt` is merged into
`if (outer_cond && inner_cond) { inner_then }`; the merged node is not
descended into during the same traversal (the source restarts from the
module root while anything changed). -/
def mergeIfStep : Stmt → Stmt × Bool
  | .ifStmt c t =>
      match t with
      | .ifStmt c2 t2 => (.ifStmt (.binaryOp .logicalAnd c c2) t2, true)
      | _ =>
          let (t', ch) := mergeIfStep t
          (.ifStmt c t', ch)
  | .ifElse c t e =>
      let (t', ch1) := mergeIfStep t
      let (e', ch2) := mergeIfStep e
      (.ifElse c t' e', ch1 || ch2)
  | .block n stmts =>
      let (stmts', ch) := mergeIfStepList stmts
      (.block n stmts', ch)
  | .assign l r => (.assign l r, false)
  | .exprEval e => (.exprEval e, false)
  | .ret => (.ret, false)
  | .nop => (.nop, false)

def mergeIfStepList : List Stmt → List Stmt × Bool
  | [] => ([], false)
  | s :: ss =>
      let (s', ch1) := mergeIfStep s
      let (ss', ch2) := mergeIfStepList ss
      (s' :: ss', ch1 || ch2)

end

/-- The `while (changed)` loop of `NestedIfStmtElimination`.  Every
changed traversal strictly decreases the number of `IfStmt`s, so
`|allStmts| + 1` fuel is never exhausted. -/
def mergeNestedIfs : Nat → Stmt → Except String Stmt
  | 0, _ => .error "NestedIfStmtElimination: iteration fuel exhausted"
  | fuel + 1, s =>
      let (s', changed) := mergeIfStep s
      if changed then mergeNestedIfs fuel s' else .ok s'

mutual

/-- One traversal of `NestedSliceElimation::VisitBitSliceExpr`: a
`BitSlice` whose target is a `BitSlice` is replaced by the flattened
slice `a[l1+h2 : l1+l2]` after the fatal precondition check
`(h2-l2+1 <= h1-l1+1) && (h2 < h1-l1+1)`; the replacement is not descended
into during the same traversal. -/
def nsStepExpr : Expr → Except String (Expr × Bool)
  | .bitSlice target omax omin =>
      (match target with
      | .bitSlice itgt imax imin =>
          let innerSize := imax - imin + 1
          let outerSize := omax - omin + 1
          if outerSize ≤ innerSize ∧ omax < innerSize then
            .ok (.bitSlice itgt (imin + omax) (imin + omin), true)
          else
            .error "NestedSliceElimation: precondition violated"
      | _ => do
          let (t', ch) ← nsStepExpr target
          .ok (.bitSlice t' omax omin, ch))
  | .fieldAccess s f a => do
      let (s', ch) ← nsStepExpr s
      .ok (.fieldAccess s' f a, ch)
  | .arrIndex t i => do
      let (t', ch) ← nsStepExpr t
      .ok (.arrIndex t' i, ch)
  | .castTo e s n => do
      let (e', ch) ← nsStepExpr e
      .ok (.castTo e' s n, ch)
  | .unaryOp o e => do
      let (e', ch) ← nsStepExpr e
      .ok (.unaryOp o e', ch)
  | .binaryOp o l r => do
      let (l', ch1) ← nsStepExpr l
      let (r', ch2) ← nsStepExpr r
      .ok (.binaryOp o l' r', ch1 || ch2)
  | .builtinCall c args => do
      let (args', ch) ← nsStepExprList args
      .ok (.builtinCall c args', ch)
  | .nameRef n a => .ok (.nameRef n a, false)
  | .varRef d => .ok (.varRef d, false)
  | .intLiteral v s n => .ok (.intLiteral v s n, false)
  | .longIntLiteral w => .ok (.longIntLiteral w, false)

def nsStepExprList : List Expr → Except String (List Expr × Bool)
  | [] => .ok ([], false)
  | e :: es => do
      let (e', ch1) ← nsStepExpr e
      let (es', ch2) ← nsStepExprList es
      .ok (e' :: es', ch1 || ch2)

end

mutual

def nsStepStmt : Stmt → Except String (Stmt × Bool)
  | .assign l r => do
      let (l', ch1) ← nsStepExpr l
      let (r', ch2) ← nsStepExpr r
      .ok (.assign l' r', ch1 || ch2)
  | .ifStmt c t => do
      let (c', ch1) ← nsStepExpr c
      let (t', ch2) ← nsStepStmt t
      .ok (.ifStmt c' t', ch1 || ch2)
  | .ifElse c t e => do
      let (c', ch1) ← nsStepExpr c
      let (t', ch2) ← nsStepStmt t
      let (e', ch3) ← nsStepStmt e
      .ok (.ifElse c' t' e', ch1 || ch2 || ch3)
  | .block n stmts => do
      let (stmts', ch) ← nsStepStmtList stmts
      .ok (.block n stmts', ch)
  | .exprEval e => do
      let (e', ch) ← nsStepExpr e
      .ok (.exprEval e', ch)
  | .ret => .ok (.ret, false)
  | .nop => .ok (.nop, false)

def nsStepStmtList : List Stmt → Except String (List Stmt × Bool)
  | [] => .ok ([], false)
  | s :: ss => do
      let (s', ch1) ← nsStepStmt s
      let (ss', ch2) ← nsStepStmtList ss
      .ok (s' :: ss', ch1 || ch2)

end

/-- The `while (changed)` fixed-point loop of `NestedSliceElimation`.
Every changed traversal strictly decreases the number of `BitSlice`
nodes, so `|allExprs| + 1` fuel is never exhausted. -/
def nestedSliceElim : Nat → Stmt → Except String Stmt
  | 0, _ => .error "NestedSliceElimation: iteration fuel exhausted"
  | fuel + 1, s => do
      let (s', changed) ← nsStepStmt s
      if changed then nestedSliceElim fuel s' else .ok s'

/-! ### The lowering verifiers -/

def Expr.isFieldAccess : Expr → Bool
  | .fieldAccess _ _ _ => true
  | _ => false

def Expr.isArrIndex : Expr → Bool
  | .arrIndex _ _ => true
  | _ => false

def Expr.isNameRef : Expr → Bool
  | .nameRef _ _ => true
  | _ => false

def Expr.isBitSliceExpr : Expr → Bool
  | .bitSlice _ _ _ => true
  | _ => false

/-- `NestedSliceElimationVerify`: a `BitSlice` whose target is a
`BitSlice`. -/
def Expr.isNestedSlice : Expr → Bool
  | .bitSlice t _ _ => t.isBitSliceExpr
  | _ => false

/-- `ValidAndVaildSetEliminationVerify`: a `_valid` or `_valid_set` call. -/
def Expr.isValidCall : Expr → Bool
  | .builtinCall c _ => c == "_valid" || c == "_valid_set"
  | _ => false

/-- `UselessBlockEliminationVerify`: a block directly containing a block. -/
def Stmt.isBlockInBlock : Stmt → Bool
  | .block _ stmts => stmts.any (fun s =>
      match s with
      | .block _ _ => true
      | _ => false)
  | _ => false

/-- `NestedIfStmtEliminationVerify`: an `IfStmt` whose then-block is an
`IfStmt`. -/
def Stmt.isIfInIfThen : Stmt → Bool
  | .ifStmt _ t =>
      (match t with
      | .ifStmt _ _ => true
      | _ => false)
  | _ => false

/-- The seven verifier passes of `LoweringTransform`, as one predicate:
no `FieldAccessExpr`, no `ArrIndexExpr`, no `_valid`/`_valid_set` call, no
`NameRefExpr`, no block-in-block, no if-in-if-then, no nested `BitSlice`
anywhere in the lowered body. -/
def verifyLowered (body : Stmt) : Bool :=
  body.allExprs.all (fun e =>
    !e.isFieldAccess && !e.isArrIndex && !e.isValidCall && !e.isNameRef &&
    !e.isNestedSlice) &&
  body.allStmts.all (fun s => !s.isBlockInBlock && !s.isIfInIfThen)

/-- The final width check of `LoweringTransform`: every def collected by
the four collecting passes has `size().has_value()`. -/
def allCollectedDefsHaveSize (defs : List FakeVarDef)
    (names : List String) : Bool :=
  names.all (fun n =>
    match lookupDef defs n with
    | some d => d.size.isSome
    | none => false)

/-- The lowering info returned by `LoweringTransform`: the names of the
defs collected by each collecting pass. -/
structure LoweringInfo where
  fieldAccessDefs : List String
  arrIdxDefs : List String
  validBitDefs : List String
  nameRefDefs : List String
  deriving Repr, DecidableEq

def LoweringInfo.allDefs (i : LoweringInfo) : List String :=
  i.fieldAccessDefs ++ i.arrIdxDefs ++ i.validBitDefs ++ i.nameRefDefs

/-- `LoweringTransform` (xls/p5/ir_converter.cc): the seven passes in
their fixed order, then (under `need_verify`) the seven verifiers and the
collected-def width check. -/
def loweringTransform (m : Module) (delim : String) (needVerify : Bool) :
    Except String (Module × LoweringInfo) := do
  let (b1, st1) ← faElimStmt (m.defs, []) m.body
  let (b2, st2) ← aaElimStmt delim (st1.1, []) b1
  let (b3, st3) ← validElimStmt delim (st2.1, []) b2
  let (b4, st4) ← nrElimStmt (st3.1, []) b3
  let b5 := unrollBlocks b4
  let b6 ← mergeNestedIfs (b5.allStmts.length + 1) b5
  let b7 ← nestedSliceElim (b6.allExprs.length + 1) b6
  let info : LoweringInfo := ⟨st1.2, st2.2, st3.2, st4.2⟩
  let result : Module := ⟨b7, st4.1⟩
  if needVerify then
    if verifyLowered b7 then
      if allCollectedDefsHaveSize st4.1 info.allDefs then
        .ok (result, info)
      else
        .error "Not all variables' size are known"
    else
      .error "lowering verifier failed"
  else
    .ok (result, info)

/-! ## IR values built by the converter (xls/ir, FunctionBuilder)

The converter builds a dataflow graph through `FunctionBuilder`; `BValue`s
are handles to IR nodes.  The embedding represents the built value graph as
terms: each constructor is one builder call (names and source locations are
cosmetic and omitted).  `width` is `BValue::BitCountOrDie` /
`Type::GetFlatBitCount`. -/

inductive IRNode
  | param (name : String) (width : Nat)
  | literal (width : Nat) (value : Nat)
  | add (a b : IRNode)
  | sub (a b : IRNode)
  | umul (a b : IRNode)
  | udiv (a b : IRNode)
  | andOp (ops : List IRNode)
  | orOp (ops : List IRNode)
  | notOp (a : IRNode)
  | eq (a b : IRNode)
  | ne (a b : IRNode)
  | ult (a b : IRNode)
  | ule (a b : IRNode)
  | ugt (a b : IRNode)
  | uge (a b : IRNode)
  | shll (a b : IRNode)
  | shrl (a b : IRNode)
  | bitSlice (a : IRNode) (start width : Nat)
  | bitSliceUpdate (a start upd : IRNode)
  | zeroExt (a : IRNode) (newWidth : Nat)
  | concat (ops : List IRNode)
  | select (sel t f : IRNode)
  | oneHot (a : IRNode) (msbPriority : Bool)
  | oneHotSelect (sel : IRNode) (cases : List IRNode)
  | tuple (elems : List IRNode)
  deriving Repr

mutual

/-- Flat bit width of a built IR value (binary arithmetic and logic
operate on equal-width operands and keep the width; comparisons are 1 bit;
`Concat` and `Tuple` sum; `OneHot` adds the all-zero bit). -/
def IRNode.width : IRNode → Nat
  | .param _ w => w
  | .literal w _ => w
  | .add a _ => a.width
  | .sub a _ => a.width
  | .umul a _ => a.width
  | .udiv a _ => a.width
  | .andOp ops =>
      match ops with
      | [] => 0
      | x :: _ => x.width
  | .orOp ops =>
      match ops with
      | [] => 0
      | x :: _ => x.width
  | .notOp a => a.width
  | .eq _ _ => 1
  | .ne _ _ => 1
  | .ult _ _ => 1
  | .ule _ _ => 1
  | .ugt _ _ => 1
  | .uge _ _ => 1
  | .shll a _ => a.width
  | .shrl a _ => a.width
  | .bitSlice _ _ w => w
  | .bitSliceUpdate a _ _ => a.width
  | .zeroExt _ w => w
  | .concat ops => IRNode.widthSum ops
  | .select _ t _ => t.width
  | .oneHot a _ => a.width + 1
  | .oneHotSelect _ cases =>
      match cases with
      | [] => 0
      | c :: _ => c.width
  | .tuple elems => IRNode.widthSum elems

def IRNode.widthSum : List IRNode → Nat
  | [] => 0
  | x :: xs => x.width + IRNode.widthSum xs

end

mutual

/-- Structural equality of built IR values, standing in for the `BValue`
node-pointer comparison `operator==` defined in the converter. -/
def IRNode.beq : IRNode → IRNode → Bool
  | .param n w, .param n' w' => n == n' && w == w'
  | .literal w v, .literal w' v' => w == w' && v == v'
  | .add a b, .add a' b' => IRNode.beq a a' && IRNode.beq b b'
  | .sub a b, .sub a' b' => IRNode.beq a a' && IRNode.beq b b'
  | .umul a b, .umul a' b' => IRNode.beq a a' && IRNode.beq b b'
  | .udiv a b, .udiv a' b' => IRNode.beq a a' && IRNode.beq b b'
  | .andOp xs, .andOp ys => IRNode.beqList xs ys
  | .orOp xs, .orOp ys => IRNode.beqList xs ys
  | .notOp a, .notOp a' => IRNode.beq a a'
  | .eq a b, .eq a' b' => IRNode.beq a a' && IRNode.beq b b'
  | .ne a b, .ne a' b' => IRNode.beq a a' && IRNode.beq b b'
  | .ult a b, .ult a' b' => IRNode.beq a a' && IRNode.beq b b'
  | .ule a b, .ule a' b' => IRNode.beq a a' && IRNode.beq b b'
  | .ugt a b, .ugt a' b' => IRNode.beq a a' && IRNode.beq b b'
  | .uge a b, .uge a' b' => IRNode.beq a a' && IRNode.beq b b'
  | .shll a b, .shll a' b' => IRNode.beq a a' && IRNode.beq b b'
  | .shrl a b, .shrl a' b' => IRNode.beq a a' && IRNode.beq b b'
  | .bitSlice a s w, .bitSlice a' s' w' =>
      IRNode.beq a a' && s == s' && w == w'
  | .bitSliceUpdate a s u, .bitSliceUpdate a' s' u' =>
      IRNode.beq a a' && IRNode.beq s s' && IRNode.beq u u'
  | .zeroExt a w, .zeroExt a' w' => IRNode.beq a a' && w == w'
  | .concat xs, .concat ys => IRNode.beqList xs ys
  | .select s t f, .select s' t' f' =>
      IRNode.beq s s' && IRNode.beq t t' && IRNode.beq f f'
  | .oneHot a m, .oneHot a' m' => IRNode.beq a a' && m == m'
  | .oneHotSelect s cs, .oneHotSelect s' cs' =>
      IRNode.beq s s' && IRNode.beqList cs cs'
  | .tuple xs, .tuple ys => IRNode.beqList xs ys
  | _, _ => false

def IRNode.beqList : List IRNode → List IRNode → Bool
  | [], [] => true
  | x :: xs, y :: ys => IRNode.beq x y && IRNode.beqList xs ys
  | _, _ => false

end

/-- `P5ActionIrConverter::ChangeSize`: zero-extend when growing, truncate
(bit-slice from 0) when shrinking, identity when equal. -/
def changeSize (v : IRNode) (newSize : Nat) : IRNode :=
  let oldSize := v.width
  if oldSize = newSize then v
  else if oldSize < newSize then .zeroExt v newSize
  else .bitSlice v 0 newSize

/-! ### AST analyses feeding the converter (xls/p5/ir_converter.cc) -/

mutual

/-- `LiveVarCollection`: every `VarRef`'s def, here in first-occurrence
order (the source keeps a `std::set` of def pointers; the spec fixes the
ordering contract as the insertion order of live variables). -/
def liveVarsExpr (acc : List String) : Expr → List String
  | .varRef d => insertName acc d
  | .nameRef _ _ => acc
  | .fieldAccess s _ _ => liveVarsExpr acc s
  | .arrIndex t _ => liveVarsExpr acc t
  | .bitSlice t _ _ => liveVarsExpr acc t
  | .castTo e _ _ => liveVarsExpr acc e
  | .unaryOp _ e => liveVarsExpr acc e
  | .binaryOp _ l r => liveVarsExpr (liveVarsExpr acc l) r
  | .intLiteral _ _ _ => acc
  | .longIntLiteral _ => acc
  | .builtinCall _ args => liveVarsExprList acc args

def liveVarsExprList (acc : List String) : List Expr → List String
  | [] => acc
  | e :: es => liveVarsExprList (liveVarsExpr acc e) es

end

mutual

def liveVarsStmt (acc : List String) : Stmt → List String
  | .assign l r => liveVarsExpr (liveVarsExpr acc l) r
  | .ifStmt c t => liveVarsStmt (liveVarsExpr acc c) t
  | .ifElse c t e => liveVarsStmt (liveVarsStmt (liveVarsExpr acc c) t) e
  | .block _ stmts => liveVarsStmtList acc stmts
  | .exprEval e => liveVarsExpr acc e
  | .ret => acc
  | .nop => acc

def liveVarsStmtList (acc : List String) : List Stmt → List String
  | [] => acc
  | s :: ss => liveVarsStmtList (liveVarsStmt acc s) ss

end

mutual

/-- `StmtModifiedVarAnalysis`: the set of defs a statement may assign.
Assignments to anything but a whole `VarRef` or a `BitSlice` of a `VarRef`
are fatal. -/
def stmtModifiedVars : Stmt → Except String (List String)
  | .assign lhs _ =>
      (match lhs with
      | .varRef d => .ok [d]
      | .bitSlice t _ _ =>
          match t with
          | .varRef d => .ok [d]
          | _ => .error "StmtModifiedVarAnalysis: slice target is not a VarRef"
      | _ => .error "StmtModifiedVarAnalysis: unsupported lhs")
  | .ifStmt _ t => stmtModifiedVars t
  | .ifElse _ t e => do
      let l1 ← stmtModifiedVars t
      let l2 ← stmtModifiedVars e
      .ok (l2.foldl insertName l1)
  | .block _ stmts => stmtModifiedVarsList stmts
  | .exprEval _ => .ok []
  | .ret => .ok []
  | .nop => .ok []

def stmtModifiedVarsList : List Stmt → Except String (List String)
  | [] => .ok []
  | s :: ss => do
      let l1 ← stmtModifiedVars s
      let l2 ← stmtModifiedVarsList ss
      .ok (l2.foldl insertName l1)

end

/-- Conjoin an inherited hit condition with a branch condition
(`AddBinaryOpExpr(kLogicalAnd, predict, condition)`), or start from the
branch condition when nothing is inherited. -/
def hitConj : Option Expr → Expr → Expr
  | none, c => c
  | some p, c => .binaryOp .logicalAnd p c

mutual

/-- `ExitPredictionAnalysis`: the hit predicate of every `Return`
statement, in traversal order.  A `Return` with no computed condition
(e.g. at the top level) is fatal. -/
def exitPredStmt (cond : Option Expr) : Stmt → Except String (List Expr)
  | .block _ stmts => exitPredStmtList cond stmts
  | .ifStmt c t => exitPredStmt (some (hitConj cond c)) t
  | .ifElse c t e => do
      let l1 ← exitPredStmt (some (hitConj cond c)) t
      let l2 ← exitPredStmt (some (hitConj cond (.unaryOp .logicalNot c))) e
      .ok (l1 ++ l2)
  | .ret =>
      (match cond with
      | some p => .ok [p]
      | none => .error "The Return Stmt's predition is not computed")
  | .assign _ _ => .ok []
  | .exprEval _ => .ok []
  | .nop => .ok []

def exitPredStmtList (cond : Option Expr) : List Stmt →
    Except String (List Expr)
  | [] => .ok []
  | s :: ss => do
      let l1 ← exitPredStmt cond s
      let l2 ← exitPredStmtList cond ss
      .ok (l1 ++ l2)

end

/-- `FakeVarDef::TryUpdateSize` applied to the def named `name` in the
table. -/
def updateDefSize (defs : List FakeVarDef) (name : String) (n : Nat) :
    List FakeVarDef :=
  defs.map (fun d =>
    if d.name == name then { d with size := tryUpdateSize d.size n } else d)

mutual

/-- `VarSizeInference`: a top-level bit-slice `a[h:l]` forces
`width(a) >= h+1` (`max_bit + 1 <= 0`, i.e. a wrapped `uint32_t`
`max_bit = 2^32 - 1`, is an `InvalidArgument`); a slice of anything but a
`VarRef` is fatal. -/
def vsiExpr (defs : List FakeVarDef) : Expr → Except String (List FakeVarDef)
  | .bitSlice t h _ => do
      let defs' ← vsiExpr defs t
      match t with
      | .varRef d =>
          if h = 2 ^ 32 - 1 then
            .error "Bitslice length is wrong"
          else
            .ok (updateDefSize defs' d (h + 1))
      | _ => .error "VarSizeInference: slice target is not a VarRef"
  | .fieldAccess s _ _ => vsiExpr defs s
  | .arrIndex t _ => vsiExpr defs t
  | .castTo e _ _ => vsiExpr defs e
  | .unaryOp _ e => vsiExpr defs e
  | .binaryOp _ l r => do
      let defs' ← vsiExpr defs l
      vsiExpr defs' r
  | .builtinCall _ args => vsiExprList defs args
  | .nameRef _ _ => .ok defs
  | .varRef _ => .ok defs
  | .intLiteral _ _ _ => .ok defs
  | .longIntLiteral _ => .ok defs

def vsiExprList (defs : List FakeVarDef) : List Expr →
    Except String (List FakeVarDef)
  | [] => .ok defs
  | e :: es => do
      let defs' ← vsiExpr defs e
      vsiExprList defs' es

end

mutual

/-- `VarSizeInference::VisitAssignStmt`: after visiting both sides, an
assignment of a `LongIntLiteral` of `w` 64-bit words to a whole variable
forces `width(var) >= 64·w`. -/
def vsiStmt (defs : List FakeVarDef) : Stmt → Except String (List FakeVarDef)
  | .assign lhs rhs => do
      let defs1 ← vsiExpr defs lhs
      let defs2 ← vsiExpr defs1 rhs
      match lhs, rhs with
      | .varRef d, .longIntLiteral words =>
          .ok (updateDefSize defs2 d (words.length * 64))
      | _, _ => .ok defs2
  | .ifStmt c t => do
      let defs1 ← vsiExpr defs c
      vsiStmt defs1 t
  | .ifElse c t e => do
      let defs1 ← vsiExpr defs c
      let defs2 ← vsiStmt defs1 t
      vsiStmt defs2 e
  | .block _ stmts => vsiStmtList defs stmts
  | .exprEval e => vsiExpr defs e
  | .ret => .ok defs
  | .nop => .ok defs

def vsiStmtList (defs : List FakeVarDef) : List Stmt →
    Except String (List FakeVarDef)
  | [] => .ok defs
  | s :: ss => do
      let defs' ← vsiStmt defs s
      vsiStmtList defs' ss

end

mutual

/-- The checks of `VarLiveRangesAnalysis`: every referenced def has a
known, non-zero size; a `BitSlice`'s target is a `VarRef` and
`max_bit >= min_bit` (the analysis does not descend into the slice's
target). -/
def lrcExpr (defs : List FakeVarDef) : Expr → Except String Unit
  | .varRef d =>
      (match lookupDef defs d with
      | some dd =>
          match dd.size with
          | some s =>
              if s = 0 then .error "Variable's size should not be 0"
              else .ok ()
          | none => .error "VarLiveRangesAnalysis: size unknown"
      | none => .error "VarLiveRangesAnalysis: unknown def")
  | .bitSlice t h l =>
      (match t with
      | .varRef _ => if l ≤ h then .ok () else .error "max_bit < min_bit"
      | _ => .error "VarLiveRangesAnalysis: slice target is not a VarRef")
  | .nameRef _ _ => .ok ()
  | .fieldAccess s _ _ => lrcExpr defs s
  | .arrIndex t _ => lrcExpr defs t
  | .castTo e _ _ => lrcExpr defs e
  | .unaryOp _ e => lrcExpr defs e
  | .binaryOp _ l r => do
      lrcExpr defs l
      lrcExpr defs r
  | .intLiteral _ _ _ => .ok ()
  | .longIntLiteral _ => .ok ()
  | .builtinCall _ args => lrcExprList defs args

def lrcExprList (defs : List FakeVarDef) : List Expr → Except String Unit
  | [] => .ok ()
  | e :: es => do
      lrcExpr defs e
      lrcExprList defs es

end

mutual

def lrcStmt (defs : List FakeVarDef) : Stmt → Except String Unit
  | .assign l r => do
      lrcExpr defs l
      lrcExpr defs r
  | .ifStmt c t => do
      lrcExpr defs c
      lrcStmt defs t
  | .ifElse c t e => do
      lrcExpr defs c
      lrcStmt defs t
      lrcStmt defs e
  | .block _ stmts => lrcStmtList defs stmts
  | .exprEval e => lrcExpr defs e
  | .ret => .ok ()
  | .nop => .ok ()

def lrcStmtList (defs : List FakeVarDef) : List Stmt → Except String Unit
  | [] => .ok ()
  | s :: ss => do
      lrcStmt defs s
      lrcStmtList defs ss

end

/-- `AstAnalysisInformation`: live variables (`variables` in the source,
with their post-inference defs), the global subset, and the per-return hit
predicates. -/
structure Analysis where
  varList : List FakeVarDef
  globalVars : List FakeVarDef
  exits : List Expr
  deriving Repr

/-- The `AstAnalysisInformation` constructor: live-variable collection,
the live-range checks, exit prediction, the modified-vars analysis and
variable-width inference, in source order; any failure is fatal. -/
def mkAnalysis (body : Stmt) (defs : List FakeVarDef) :
    Except String Analysis := do
  let names := liveVarsStmt [] body
  lrcStmt defs body
  let exits ← exitPredStmt none body
  let _ ← stmtModifiedVars body
  let defs' ← vsiStmt defs body
  let vars := names.filterMap (fun n => lookupDef defs' n)
  .ok { varList := vars
        globalVars := vars.filter (fun d => d.isGlobal)
        exits := exits }

/-! ### The AST-to-IR converter (`P5ActionIrConverter`) -/

/-- `def2idx_`: position of a def in the frozen variable ordering. -/
def defToIdx (an : Analysis) (name : String) : Except String Nat :=
  match an.varList.findIdx? (fun d => d.name == name) with
  | some i => .ok i
  | none => .error "DefToIdx: unknown def"

/-- `DefToSize`: the def's bit count (`XLS_CHECK(size().has_value())`). -/
def defToSize (an : Analysis) (name : String) : Except String Nat :=
  match lookupDef an.varList name with
  | some d =>
      match d.size with
      | some s => .ok s
      | none => .error "DefToSize: size unknown"
  | none => .error "DefToSize: unknown def"

/-- `ContextType::at`. -/
def ctxAt (ctx : List IRNode) (i : Nat) : Except String IRNode :=
  match ctx.get? i with
  | some v => .ok v
  | none => .error "context index out of range"

/-- Converter state: the `expr_value_` cache (keyed by node identity in
the source; structurally here) and the contexts recorded at each visited
`Return` statement, in traversal order (`stmt_in_ctx_`/`stmt_out_ctx_`
restricted to what `Build` reads; a `Return` leaves its context
unchanged, so one context per return suffices). -/
structure ConvState where
  cache : List (Expr × IRNode)
  retCtxs : List (List IRNode)
  deriving Repr

/-- `VisitIfStmt`'s merge loop: for each possibly-modified variable whose
then-branch value differs from the incoming one, select between them. -/
def applyIfMods (sel : IRNode) (thenCtx ctx : List IRNode)
    (an : Analysis) (mods : List String) : Except String (List IRNode) :=
  mods.foldlM
    (fun result var => do
      let idx ← defToIdx an var
      let tv ← ctxAt thenCtx idx
      let bv ← ctxAt ctx idx
      if IRNode.beq tv bv then .ok result
      else .ok (result.set idx (.select sel tv bv)))
    ctx

/-- `VisitIfElseStmt`'s merge loop. -/
def applyIfElseMods (sel : IRNode) (thenCtx elseCtx ctx : List IRNode)
    (an : Analysis) (mods : List String) : Except String (List IRNode) :=
  mods.foldlM
    (fun result var => do
      let idx ← defToIdx an var
      let tv ← ctxAt thenCtx idx
      let ev ← ctxAt elseCtx idx
      let bv ← ctxAt ctx idx
      if !IRNode.beq tv bv || !IRNode.beq ev bv then
        .ok (result.set idx (.select sel tv ev))
      else .ok result)
    ctx

/-- `P5ActionIrConverter::VisitBinaryOpExpr` given the already-evaluated
operand values: shifts resize the left operand to 64 bits and emit
`Shll`/`Shrl`; logical and/or compare each operand against a zero literal
of its own width and emit `And`/`Or` of the 1-bit results; every other
operator zero-extends (via `ChangeSize`) the narrower operand to the wider
width and emits the operator. -/
def binOpSwitch (op : OpKind) (operands : List IRNode) :
    Except String IRNode :=
  let o0 := operands.getD 0 (.literal 0 0)
  let o1 := operands.getD 1 (.literal 0 0)
  match op with
  | .minus => .ok (.sub o0 o1)
  | .plus => .ok (.add o0 o1)
  | .mul => .ok (.umul o0 o1)
  | .div => .ok (.udiv o0 o1)
  | .bitwiseAnd => .ok (.andOp operands)
  | .bitwiseOr => .ok (.orOp operands)
  | .equal => .ok (.eq o0 o1)
  | .notEqual => .ok (.ne o0 o1)
  | .greaterEqual => .ok (.uge o0 o1)
  | .greaterThan => .ok (.ugt o0 o1)
  | .lessEqual => .ok (.ule o0 o1)
  | .lessThan => .ok (.ult o0 o1)
  | _ => .error "not a binary operation"

def emitBinaryOp (op : OpKind) (lv rv : IRNode) :
    Except String IRNode :=
  if op = .leftShift ∨ op = .rightShift then
    let lhs := changeSize lv 64
    if op = .leftShift then .ok (.shll lhs rv) else .ok (.shrl lhs rv)
  else if op = .logicalAnd ∨ op = .logicalOr then
    let sz1 := lv.width
    let sz2 := rv.width
    let operands :=
      [IRNode.ne lv (.literal sz1 0), IRNode.ne rv (.literal sz2 0)]
    if op = .logicalAnd then .ok (.andOp operands) else .ok (.orOp operands)
  else
    let szl := lv.width
    let szr := rv.width
    let operands :=
      if szr < szl then [lv, changeSize rv szl]
      else [changeSize lv szr, rv]
    binOpSwitch op operands

mutual

/-- Nesting depth of an expression; used only as the recursion fuel of
`visitExpr` (each dispatch descends exactly one level, so the depth always
suffices and the fuel-exhausted branch is unreachable). -/
def exprDepth : Expr → Nat
  | .nameRef _ _ => 1
  | .varRef _ => 1
  | .fieldAccess s _ _ => exprDepth s + 1
  | .arrIndex t _ => exprDepth t + 1
  | .bitSlice t _ _ => exprDepth t + 1
  | .castTo e _ _ => exprDepth e + 1
  | .unaryOp _ e => exprDepth e + 1
  | .binaryOp _ l r => max (exprDepth l) (exprDepth r) + 1
  | .intLiteral _ _ _ => 1
  | .longIntLiteral _ => 1
  | .builtinCall _ args => exprDepthList args + 1

def exprDepthList : List Expr → Nat
  | [] => 0
  | e :: es => max (exprDepth e) (exprDepthList es)

end

/-- `P5ActionIrConverter::VisitExpr`: consult the `expr_value_` cache,
dispatch on the node kind, record the result in the cache.
`FieldAccess`/`ArrIndex` nodes are fatal (eliminated by lowering);
`VisitNameRefExpr`'s `XLS_CHECK("Should not exist NameRefExpr")`
vacuously passes in the source and returns an empty `BValue`, which any
later use would trip over — modelled as an error here, unreachable after
lowering.  The `fuel` argument only drives the recursion (callers pass
`exprDepth e`, which always suffices). -/
def visitExpr (an : Analysis) :
    Nat → ConvState → List IRNode → Expr → Except String (IRNode × ConvState)
  | 0, _, _, _ => .error "expression fuel exhausted"
  | fuel + 1, st, ctx, e =>
    match st.cache.find? (fun p => Expr.beq p.1 e) with
    | some p => .ok (p.2, st)
    | none => do
        let (result, st') ←
          (match e with
          | .bitSlice target hmax hmin => do
              let (tv, st') ← visitExpr an fuel st ctx target
              .ok (IRNode.bitSlice tv hmin (hmax - hmin + 1), st')
          | .nameRef _ _ => .error "Should not exist NameRefExpr"
          | .varRef d => do
              let idx ← defToIdx an d
              let v ← ctxAt ctx idx
              .ok (v, st)
          | .castTo e castSize _ => do
              let (v, st') ← visitExpr an fuel st ctx e
              .ok (changeSize v castSize, st')
          | .unaryOp op e => do
              let (v, st') ← visitExpr an fuel st ctx e
              (match op with
              | .bitwiseNot => .ok (IRNode.notOp v, st')
              | .logicalNot => .ok (IRNode.notOp v, st')
              | _ => .error "not a unary operation")
          | .binaryOp op l r => do
              let (lv, st') ← visitExpr an fuel st ctx l
              let (rv, st'') ← visitExpr an fuel st' ctx r
              let v ← emitBinaryOp op lv rv
              .ok (v, st'')
          | .builtinCall callee args =>
              if (callee = "sizeof" || callee = "_get_anchor" ||
                  callee = "_stack_push_h" || callee = "_stack_push_b") &&
                  args.length = 1 then
                match args with
                | [arg0] => do
                    let (av, st') ← visitExpr an fuel st ctx arg0
                    if callee = "sizeof" then
                      .ok (IRNode.literal 64 av.width, st')
                    else
                      .ok (av, st')
                | _ => .error "unsupported builtin call"
              else .error "unsupported builtin call"
          | .intLiteral value size _ => .ok (IRNode.literal size value, st)
          | .longIntLiteral words => .ok (IRNode.literal words.length 0, st)
          | .fieldAccess _ _ _ =>
              .error "unsupported Expr kind in IR conversion"
          | .arrIndex _ _ => .error "unsupported Expr kind in IR conversion")
        .ok (result, { st' with cache := st'.cache ++ [(e, result)] })

mutual

/-- `P5ActionIrConverter::VisitStmt` and the per-kind statement transfer
functions: the context is threaded through blocks, branches merge with
`Select`, assignments update one slot (whole variable, width-adjusted via
`ChangeSize`, or `BitSliceUpdate` for a slice), `ExprEval` of the
observational builtins and `Nop` leave the context unchanged, and `Return`
records its context for the exit merge. -/
def visitStmt (an : Analysis) (st : ConvState) (ctx : List IRNode) :
    Stmt → Except String (List IRNode × ConvState)
  | .block _ stmts => visitStmtList an st ctx stmts
  | .assign lhs rhs => do
      let (rhsValue, st') ← visitExpr an (exprDepth rhs) st ctx rhs
      (match lhs with
      | .varRef d => do
          let idx ← defToIdx an d
          let sz ← defToSize an d
          .ok (ctx.set idx (changeSize rhsValue sz), st')
      | .bitSlice t hmax hmin =>
          (match t with
          | .varRef d => do
              let idx ← defToIdx an d
              let old ← ctxAt ctx idx
              let sliceSize := hmax - hmin + 1
              let resized := changeSize rhsValue sliceSize
              .ok (ctx.set idx
                    (.bitSliceUpdate old (.literal 64 hmin) resized), st')
          | _ => .error "assignment slice target is not a VarRef")
      | _ => .error "unsupported assignment lhs")
  | .ifStmt cond thenB => do
      let (sel, st1) ← visitExpr an (exprDepth cond) st ctx cond
      let (thenCtx, st2) ← visitStmt an st1 ctx thenB
      let mods ← stmtModifiedVars (.ifStmt cond thenB)
      let result ← applyIfMods sel thenCtx ctx an mods
      .ok (result, st2)
  | .ifElse cond thenB elseB => do
      let (sel, st1) ← visitExpr an (exprDepth cond) st ctx cond
      let (thenCtx, st2) ← visitStmt an st1 ctx thenB
      let (elseCtx, st3) ← visitStmt an st2 ctx elseB
      let mods ← stmtModifiedVars (.ifElse cond thenB elseB)
      let result ← applyIfElseMods sel thenCtx elseCtx ctx an mods
      .ok (result, st3)
  | .exprEval e =>
      (match e with
      | .builtinCall callee _ =>
          if callee = "_get_anchor" || callee = "_stack_push_h" ||
              callee = "_stack_push_b" then
            .ok (ctx, st)
          else .error "ExprEval of an unsupported builtin"
      | _ => .error "ExprEval of a non-builtin")
  | .ret => .ok (ctx, { st with retCtxs := st.retCtxs ++ [ctx] })
  | .nop => .ok (ctx, st)

def visitStmtList (an : Analysis) (st : ConvState) (ctx : List IRNode) :
    List Stmt → Except String (List IRNode × ConvState)
  | [] => .ok (ctx, st)
  | s :: ss => do
      let (ctx', st') ← visitStmt an st ctx s
      visitStmtList an st' ctx' ss

end

/-- The converter constructor's input context: one `Param` per live
variable, in the frozen ordering, of the def's bit count
(`XLS_CHECK(def->size().has_value())`). -/
def mkInputCtx (an : Analysis) : Except String (List IRNode) :=
  an.varList.mapM (fun d =>
    match d.size with
    | some s => .ok (IRNode.param d.name s)
    | none => .error "converter: variable size unknown")

/-- One exit-merge case column: the chosen global variable's value in each
return context followed by the no-return-fired fallthrough context. -/
def mergeCases (retCtxs : List (List IRNode)) (fallthrough : List IRNode)
    (gidx : Nat) : Except String (List IRNode) := do
  let exitVals ← retCtxs.mapM (fun c => ctxAt c gidx)
  let fall ← ctxAt fallthrough gidx
  .ok (exitVals ++ [fall])

/-- The `exit_predict_bits` loop of `Build`: evaluate each hit predicate
in the corresponding return's recorded context
(`VisitExpr(predict_expr, ctx)`), checking each is 1 bit wide. -/
def evalExitBits (an : Analysis) (exits : List Expr)
    (retCtxs : List (List IRNode)) (st : ConvState) :
    Except String (List IRNode × ConvState) :=
  (exits.zip retCtxs).foldlM
    (fun (acc : List IRNode × ConvState) pair => do
      let r ← visitExpr an (exprDepth pair.1) acc.2 pair.2 pair.1
      if r.1.width = 1 then .ok (acc.1 ++ [r.1], r.2)
      else .error "exit predicate is not 1 bit")
    ([], st)

/-- `P5ActionIrConverter::Build`: convert the body, evaluate each return's
hit predicate in that return's recorded context (each must be 1 bit),
concatenate them, one-hot encode with MSB priority, and produce each
global variable's final value by a `OneHotSelect` over the per-return
values with the fallthrough context as last case; the function returns the
`Tuple` of these final values. -/
def build (body : Stmt) (an : Analysis) : Except String IRNode := do
  let inputCtx ← mkInputCtx an
  match body with
  | .block _ stmts => do
      let res ← visitStmtList an ⟨[], []⟩ inputCtx stmts
      let globalIdx ← an.globalVars.mapM (fun d => defToIdx an d.name)
      if res.2.retCtxs.length = an.exits.length then
        let eb ← evalExitBits an an.exits res.2.retCtxs res.2
        let outputs ← globalIdx.mapM (fun gi => do
          let cs ← mergeCases res.2.retCtxs res.1 gi
          .ok (IRNode.oneHotSelect (.oneHot (.concat eb.1) true) cs))
        .ok (.tuple outputs)
      else .error "return contexts do not match exit predicates"
  | _ => .error "Build: function body is not a StmtBlock"

/-- A module whose only statement assigns to a name annotated with size 0:
lowering completes, the verifier accepts, and the collected def `x` has
resolved width 0. -/
def exC2Module : Module :=
  ⟨.block "top"
      [.assign (.nameRef "x" (some ⟨0, true⟩)) (.intLiteral 1 64 none)], []⟩

/-- The spec's nested-slice scenario: `x = a[59:10][39:20][9:0]` with
`width(a) = 60`. -/
def exC3Module : Module :=
  ⟨.block "top"
      [.assign (.nameRef "x" (some ⟨60, true⟩))
        (.bitSlice
          (.bitSlice (.bitSlice (.nameRef "a" (some ⟨60, true⟩)) 59 10) 39 20)
          9 0)], []⟩

/-- A concrete C5 scenario: two global variables, one `Return` guarded by
`c`, and a fallthrough assignment after the `if`. -/
def exC5Defs : List FakeVarDef := [⟨"c", some 1, true⟩, ⟨"g", some 8, true⟩]

def exC5Body : Stmt :=
  .block "top"
    [.ifStmt (.varRef "c")
        (.block "b" [.assign (.varRef "g") (.intLiteral 0 8 none), .ret]),
     .assign (.varRef "g") (.intLiteral 7 8 none)]

/-- The analysis `mkAnalysis exC5Body exC5Defs` computes (checked by `rfl`
in the C5 witness). -/
def exC5An : Analysis :=
  { varList := [⟨"c", some 1, true⟩, ⟨"g", some 8, true⟩]
    globalVars := [⟨"c", some 1, true⟩, ⟨"g", some 8, true⟩]
    exits := [.varRef "c"] }

/-- The converter's output on the C5 scenario: for each global a
`OneHotSelect` over the return-context value and the fallthrough value. -/
def exC5Result : IRNode :=
  .tuple
    [.oneHotSelect (.oneHot (.concat [.param "c" 1]) true)
        [.param "c" 1, .param "c" 1],
     .oneHotSelect (.oneHot (.concat [.param "c" 1]) true)
        [.literal 8 0, .literal 8 7]]

/-! ### The JSON syntax-tree parser (`json_ast_parser.cc`) -/

/-- A JSON value, restricted to what the parser inspects: objects,
strings, numbers and arrays. -/
inductive Json
  | obj (fields : List (String × Json))
  | str (s : String)
  | num (n : Nat)
  | arr (elems : List Json)

/-- `json.is_object()`. -/
def Json.isObject : Json → Bool
  | .obj _ => true
  | _ => false

/-- `json.contains(key)` (false on a non-object). -/
def Json.containsKey (j : Json) (k : String) : Bool :=
  match j with
  | .obj fields => fields.any (fun f => f.1 == k)
  | _ => false

/-- `json.at(key)`.  In the source a missing key throws, aborting the
whole parse; every access the C7 theorems exercise is to a key whose
presence is either checked by the code first or assumed as a
hypothesis, so the default value is never observed there. -/
def Json.atKey (j : Json) (k : String) : Json :=
  match j with
  | .obj fields =>
      match fields.find? (fun f => f.1 == k) with
      | some f => f.2
      | none => .obj []
  | _ => .obj []

/-- `json.at(k) == "lit"` (nlohmann string comparison). -/
def Json.strEq (j : Json) (s : String) : Bool :=
  match j with
  | .str t => t == s
  | _ => false

/-- `json.at(k) == 1` for the `GLOBAL` flag. -/
def Json.numEq (j : Json) (n : Nat) : Bool :=
  match j with
  | .num m => m == n
  | _ => false

/-- Implicit conversion to `std::string`. -/
def Json.getStr : Json → String
  | .str s => s
  | _ => ""

/-- Implicit conversion to an unsigned integer. -/
def Json.getNat : Json → Nat
  | .num n => n
  | _ => 0

/-- The elements of a JSON array. -/
def Json.getArr : Json → List Json
  | .arr l => l
  | _ => []

/-- Decimal value of a digit string (`std::stoll`, non-negative case). -/
def decDigits (l : List Char) : Nat :=
  l.foldl (fun a c => a * 10 + (c.toNat - 48)) 0

/-- `GetReversedInt64Value`: the INT payload stores the decimal digits
in reverse; reverse the string and read it as a number. -/
def getReversedInt64Value (s : String) : Nat :=
  decDigits s.data.reverse

/-- The `binary_op_` table (`P5_BINARY_OP` in keywords.h). -/
def binaryOpOfString : String → Option OpKind
  | "LAND" => some .logicalAnd
  | "LOR" => some .logicalOr
  | "EQ" => some .equal
  | "NE" => some .notEqual
  | "LE" => some .lessEqual
  | "LT" => some .lessThan
  | "GE" => some .greaterEqual
  | "GT" => some .greaterThan
  | "AND" => some .bitwiseAnd
  | "OR" => some .bitwiseOr
  | "LSHIFT" => some .leftShift
  | "RSHIFT" => some .rightShift
  | "PLUS" => some .plus
  | "MINUS" => some .minus
  | "MUL" => some .mul
  | "DIVIDE" => some .div
  | _ => none

/-- The `unary_op_` table (`P5_UNARY_OP` in keywords.h). -/
def unaryOpOfString : String → Option OpKind
  | "LNOT" => some .logicalNot
  | "NOT" => some .bitwiseNot
  | _ => none

/-- `ParseNameRefExpr`: an `IDENT` without a `VALUE` payload; `SIZE` and
`GLOBAL` must appear together (`XLS_CHECK`) and become the annotation. -/
def parseNameRefExpr (j : Json) : Except String Expr :=
  if !(j.isObject && j.containsKey "TYNAME" &&
       (j.atKey "TYNAME").strEq "IDENT" && j.containsKey "STRING" &&
       !j.containsKey "VALUE") then
    .error "Try parse a NameRefExpr from json, but fail to check type"
  else
    let hasSize := j.containsKey "SIZE"
    let hasGlobal := j.containsKey "GLOBAL"
    if !((hasSize && hasGlobal) || (!hasSize && !hasGlobal)) then
      .error "XLS_CHECK failed: SIZE and GLOBAL appear both or neither"
    else if hasSize && hasGlobal then
      .ok (.nameRef (j.atKey "STRING").getStr
            (some ⟨(j.atKey "SIZE").getNat, (j.atKey "GLOBAL").numEq 1⟩))
    else
      .ok (.nameRef (j.atKey "STRING").getStr none)

/-- `ParseNamedConstantExpr`: an `IDENT` with a `VALUE` payload becomes a
64-bit named literal (1-bit for `true`/`false`). -/
def parseNamedConstantExpr (j : Json) : Except String Expr :=
  if !(j.isObject && j.containsKey "TYNAME" &&
       (j.atKey "TYNAME").strEq "IDENT" && j.containsKey "STRING" &&
       j.containsKey "VALUE") then
    .error "Try parse a NamedContantExpr from json, but fail to check type"
  else
    let name := (j.atKey "STRING").getStr
    let size := if name == "true" || name == "false" then 1 else 64
    .ok (.intLiteral (j.atKey "VALUE").getNat size (some name))

/-- `ParseTypeAnnotation`: `(TYPESIZE, STRING)`. -/
def parseTypeAnnotation (j : Json) : Except String (Nat × String) :=
  if !(j.isObject && j.containsKey "TYNAME" &&
       (j.atKey "TYNAME").strEq "IDENT" && j.containsKey "TYPESIZE") then
    .error "Try parse a TypeAnnotation from json, but fail to check type"
  else
    .ok ((j.atKey "TYPESIZE").getNat, (j.atKey "STRING").getStr)

/-- `ParseIntLiteralExpr`: 64-bit literal named `int_lit`; a missing INT
payload means value 0. -/
def parseIntLiteralExpr (j : Json) : Except String Expr :=
  if !(j.isObject && j.containsKey "TYNAME" &&
       (j.atKey "TYNAME").strEq "INT_LIT") then
    .error "Try parse a ParseIntLiteralExpr from json, but fail to check type"
  else
    let value :=
      if j.containsKey "INT" then
        getReversedInt64Value ((j.atKey "INT").getStr)
      else 0
    .ok (.intLiteral value 64 (some "int_lit"))

/-- `ParseLongIntLiteralExpr`: each element of `VALUES` must be an
`INT_LIT` (`XLS_CHECK`) and contributes one 64-bit word. -/
def parseLongIntLiteralExpr (j : Json) : Except String Expr := do
  if !(j.isObject && j.containsKey "TYNAME" &&
       (j.atKey "TYNAME").strEq "LIST" && j.containsKey "VALUES") then
    .error "Try parse a LongIntLiteralExpr from json, but fail to check type"
  else
    let words ← (j.atKey "VALUES").getArr.mapM (fun u64 =>
      if !(u64.atKey "TYNAME").strEq "INT_LIT" then
        Except.error "XLS_CHECK failed: LIST element is not INT_LIT"
      else if u64.containsKey "INT" then
        Except.ok (getReversedInt64Value ((u64.atKey "INT").getStr))
      else Except.ok 0)
    .ok (.longIntLiteral words)

mutual

/-- `JsonSyntaxTreeParser::ParseExpr`: dispatch on `TYNAME`.  A `SLICE`
whose bounds `OP1` and `OP2` both lack an `INT` payload is the full
slice `expr[:]` and parses as the sliced expression `OP0`.  The fuel
argument only bounds the recursion depth. -/
def parseExpr : Nat → Json → Except String Expr
  | 0, _ => .error "recursion fuel exhausted"
  | fuel + 1, j =>
    if !(j.isObject && j.containsKey "TYNAME") then
      .error "Try parse a Expr from json, but fail to check type"
    else
      let ty := (j.atKey "TYNAME").getStr
      if ty == "IDENT" then
        if j.containsKey "VALUE" then parseNamedConstantExpr j
        else parseNameRefExpr j
      else if ty == "DOT" then parseFieldAccessExpr fuel j
      else if ty == "SLICE" then
        if !((j.atKey "OP1").containsKey "INT" ||
             (j.atKey "OP2").containsKey "INT") then
          parseExpr fuel (j.atKey "OP0")
        else parseSliceExpr fuel j
      else if ty == "INT_LIT" then parseIntLiteralExpr j
      else if ty == "FUNCTION_CALL" then parseBuiltinCall fuel j
      else if ty == "CAST" then parseCastExpr fuel j
      else if ty == "INDEX" then parseArrIndexExpr fuel j
      else if ty == "LIST" then parseLongIntLiteralExpr j
      else if (binaryOpOfString ty).isSome then parseBinaryOpExpr fuel j
      else if (unaryOpOfString ty).isSome then parseUnaryOpExpr fuel j
      else
        .error "Try parse a Expr from json, but not a supported expr type"

/-- `JsonSyntaxTreeParser::ParseLvalue`: dispatch on `TYNAME`.  In the
`SLICE` branch with both bounds lacking `INT`, the code recurses into
`json.at("OP1")` — the msb bound — not the sliced expression
`json.at("OP0")`, although its comment says `expr[:] <=> expr`. -/
def parseLvalue : Nat → Json → Except String Expr
  | 0, _ => .error "recursion fuel exhausted"
  | fuel + 1, j =>
    if !(j.isObject && j.containsKey "TYNAME") then
      .error "Try parse a Lvalue from json, but fail to check type"
    else
      let ty := (j.atKey "TYNAME").getStr
      if ty == "IDENT" then parseNameRefExpr j
      else if ty == "DOT" then parseFieldAccessExpr fuel j
      else if ty == "SLICE" then
        if !((j.atKey "OP1").containsKey "INT" ||
             (j.atKey "OP2").containsKey "INT") then
          parseLvalue fuel (j.atKey "OP1")
        else parseSliceExpr fuel j
      else if ty == "INDEX" then parseArrIndexExpr fuel j
      else
        .error "Try parse a Lvalue from json, but not a supported expr type"

/-- `ParseFieldAccessExpr`: `OP0` parses as an lvalue, `OP1.STRING` is
the field name; the four annotation fields appear all or none
(`XLS_CHECK`). -/
def parseFieldAccessExpr : Nat → Json → Except String Expr
  | 0, _ => .error "recursion fuel exhausted"
  | fuel + 1, j =>
    if !(j.isObject && j.containsKey "TYNAME" &&
         (j.atKey "TYNAME").strEq "DOT" && j.containsKey "OP0" &&
         j.containsKey "OP1") then
      .error "Try parse a FieldAccessExpr from json, but fail to check type"
    else do
      let source ← parseLvalue fuel (j.atKey "OP0")
      let fieldName := ((j.atKey "OP1").atKey "STRING").getStr
      let hasSize := j.containsKey "SIZE"
      let hasGlobal := j.containsKey "GLOBAL"
      let hasStruct := j.containsKey "STRUCT"
      let hasOffset := j.containsKey "OFFSET"
      if !((hasSize && hasGlobal && hasStruct && hasOffset) ||
           !(hasSize || hasGlobal || hasStruct || hasOffset)) then
        .error "XLS_CHECK failed: annotation fields appear all or none"
      else if hasSize && hasGlobal && hasStruct && hasOffset then
        .ok (.fieldAccess source fieldName
              (some ⟨(j.atKey "SIZE").getNat, (j.atKey "GLOBAL").numEq 1,
                     (j.atKey "STRUCT").getStr, (j.atKey "OFFSET").getNat⟩))
      else .ok (.fieldAccess source fieldName none)

/-- `ParseSliceExpr`: requires at least one `INT` bound; a missing bound
defaults to 0; `XLS_CHECK(max_bit >= min_bit)`. -/
def parseSliceExpr : Nat → Json → Except String Expr
  | 0, _ => .error "recursion fuel exhausted"
  | fuel + 1, j =>
    if !(j.isObject && j.containsKey "TYNAME" &&
         (j.atKey "TYNAME").strEq "SLICE" && j.containsKey "OP0" &&
         j.containsKey "OP1" && j.containsKey "OP2" &&
         ((j.atKey "OP1").containsKey "INT" ||
          (j.atKey "OP2").containsKey "INT")) then
      .error "Try parse a BitSliceExpr from json, but fail to check type"
    else do
      let e ← parseExpr fuel (j.atKey "OP0")
      let maxBit :=
        if (j.atKey "OP1").containsKey "INT" then
          getReversedInt64Value (((j.atKey "OP1").atKey "INT").getStr)
        else 0
      let minBit :=
        if (j.atKey "OP2").containsKey "INT" then
          getReversedInt64Value (((j.atKey "OP2").atKey "INT").getStr)
        else 0
      if maxBit < minBit then
        .error "XLS_CHECK failed: max_bit < min_bit"
      else .ok (.bitSlice e maxBit minBit)

/-- `ParseCastExpr`: `OP0` is the expression, `OP1` the type
annotation. -/
def parseCastExpr : Nat → Json → Except String Expr
  | 0, _ => .error "recursion fuel exhausted"
  | fuel + 1, j =>
    if !(j.isObject && j.containsKey "TYNAME" &&
         (j.atKey "TYNAME").strEq "CAST" && j.containsKey "OP0" &&
         j.containsKey "OP1") then
      .error "Try parse a CastExpr from json, but fail to check type"
    else do
      let e ← parseExpr fuel (j.atKey "OP0")
      let anno ← parseTypeAnnotation (j.atKey "OP1")
      .ok (.castTo e anno.1 anno.2)

/-- `ParseBuiltinCall`: callee name from `OP0.STRING`, arguments from
`OP1.VALUES`. -/
def parseBuiltinCall : Nat → Json → Except String Expr
  | 0, _ => .error "recursion fuel exhausted"
  | fuel + 1, j =>
    if !(j.isObject && j.containsKey "TYNAME" &&
         (j.atKey "TYNAME").strEq "FUNCTION_CALL" && j.containsKey "OP0" &&
         j.containsKey "OP1") then
      .error "Try parse a BuiltinCallExpr from json, but fail to check type"
    else do
      let args ← parseExprList fuel (((j.atKey "OP1").atKey "VALUES").getArr)
      .ok (.builtinCall (((j.atKey "OP0").atKey "STRING").getStr) args)

/-- `ParseBinaryOpExpr`: both operands parse as expressions. -/
def parseBinaryOpExpr : Nat → Json → Except String Expr
  | 0, _ => .error "recursion fuel exhausted"
  | fuel + 1, j =>
    if !(j.isObject && j.containsKey "TYNAME" &&
         (binaryOpOfString ((j.atKey "TYNAME").getStr)).isSome &&
         j.containsKey "OP0" && j.containsKey "OP1") then
      .error "Try parse a BinaryOpExpr from json, but fail to check type"
    else do
      let lhs ← parseExpr fuel (j.atKey "OP0")
      let rhs ← parseExpr fuel (j.atKey "OP1")
      match binaryOpOfString ((j.atKey "TYNAME").getStr) with
      | some op => .ok (.binaryOp op lhs rhs)
      | none =>
          .error "Try parse a BinaryOpExpr from json, but no such Binary OP"

/-- `ParseUnaryOpExpr`: the operand parses as an expression. -/
def parseUnaryOpExpr : Nat → Json → Except String Expr
  | 0, _ => .error "recursion fuel exhausted"
  | fuel + 1, j =>
    if !(j.isObject && j.containsKey "TYNAME" &&
         (unaryOpOfString ((j.atKey "TYNAME").getStr)).isSome &&
         j.containsKey "OP0") then
      .error "Try parse a UnaryOpExpr from json, but fail to check type"
    else do
      let operand ← parseExpr fuel (j.atKey "OP0")
      match unaryOpOfString ((j.atKey "TYNAME").getStr) with
      | some op => .ok (.unaryOp op operand)
      | none =>
          .error "Try parse a UnaryOpExpr from json, but no such Unary OP"

/-- `ParseArrIndexExpr`: `OP1` must be an `INT_LIT` (a missing `INT`
payload defaults the index to 0); `OP0` parses as an lvalue. -/
def parseArrIndexExpr : Nat → Json → Except String Expr
  | 0, _ => .error "recursion fuel exhausted"
  | fuel + 1, j =>
    if !(j.isObject && j.containsKey "TYNAME" &&
         (j.atKey "TYNAME").strEq "INDEX" && j.containsKey "OP1" &&
         ((j.atKey "OP1").atKey "TYNAME").strEq "INT_LIT" &&
         j.containsKey "OP0") then
      .error "Try parse a ArrIndexExpr from json, but fail to check type"
    else do
      let idx :=
        if (j.atKey "OP1").containsKey "INT" then
          getReversedInt64Value (((j.atKey "OP1").atKey "INT").getStr)
        else 0
      let e ← parseLvalue fuel (j.atKey "OP0")
      .ok (.arrIndex e idx)

/-- `ParseBuiltinCall`'s argument loop. -/
def parseExprList : Nat → List Json → Except String (List Expr)
  | 0, _ => .error "recursion fuel exhausted"
  | _ + 1, [] => .ok []
  | fuel + 1, a :: rest => do
      let e ← parseExpr fuel a
      let es ← parseExprList fuel rest
      .ok (e :: es)

end

/-- The C7 failing input: the lvalue `x[:]` — a `SLICE` whose bounds
both lack an `INT` payload, with `OP0` the sliced variable `x`. -/
def exC7Json : Json :=
  .obj [("TYNAME", .str "SLICE"),
        ("OP0", .obj [("TYNAME", .str "IDENT"), ("STRING", .str "x"),
                      ("SIZE", .num 8), ("GLOBAL", .num 1)]),
        ("OP1", .obj [("TYNAME", .str "NONE")]),
        ("OP2", .obj [("TYNAME", .str "NONE")])]

end P5

/-! # End of definitions: theorems follow. -/

namespace Dce

theorem removeNode_subset (g : Graph) (n : Nat) :
    ∀ d ∈ (removeNode g n).nodes, d ∈ g.nodes := by
  intro d hd
  exact (List.mem_filter.mp hd).1

theorem runDceAux_graph_subset (dryRun : Bool) (fuel : Nat) :
    ∀ g wl del cnt, ∀ d ∈ (runDceAux dryRun fuel g wl del cnt).1.nodes,
      d ∈ g.nodes := by
  induction fuel with
  | zero => intro g wl del cnt d hd; exact hd
  | succ fuel ih =>
      intro g wl del cnt d hd
      cases wl with
      | nil => exact hd
      | cons node rest =>
          rw [runDceAux] at hd
          by_cases hdry : dryRun
          · simpa [hdry] using ih _ _ _ _ d (by simpa [hdry] using hd)
          · have := ih _ _ _ _ d (by simpa [hdry] using hd)
            exact removeNode_subset g node d this

theorem runDceAux_dry_graph_eq (fuel : Nat) :
    ∀ g wl del cnt, (runDceAux true fuel g wl del cnt).1 = g := by
  induction fuel with
  | zero => intro g wl del cnt; rfl
  | succ fuel ih =>
      intro g wl del cnt
      cases wl with
      | nil => rfl
      | cons node rest => rw [runDceAux]; simpa using ih g _ _ _

theorem mem_of_find?_eq_some {g : Graph} {n : Nat} {d : NodeData}
    (h : find? g n = some d) : d ∈ g.nodes ∧ d.id = n := by
  refine ⟨List.mem_of_find?_eq_some h, ?_⟩
  have := List.find?_some h
  exact eq_of_beq this

theorem pushes_deletable {g0 : Graph} {g : Graph}
    (hsub : ∀ d ∈ g.nodes, d ∈ g0.nodes) (ops : List Nat) :
    ∀ o ∈ (uniqueOperands ops).filter (fun o =>
      (users g o).length == 1 &&
      (((find? g o).map isDeletable).getD false)), deletableIn g0 o := by
  intro o ho
  have hcond := (List.mem_filter.mp ho).2
  have h2 : (((find? g o).map isDeletable).getD false) = true := by
    have := Bool.and_elim_right hcond
    exact this
  cases hf : find? g o with
  | none => rw [hf] at h2; exact absurd h2 (by decide)
  | some d =>
      rw [hf] at h2
      obtain ⟨hmem, hid⟩ := mem_of_find?_eq_some hf
      exact ⟨d, hsub d hmem, hid, h2⟩

theorem runDceAux_deleted_deletable (g0 : Graph) (dryRun : Bool)
    (fuel : Nat) :
    ∀ g wl del cnt,
      (∀ d ∈ g.nodes, d ∈ g0.nodes) →
      (∀ id ∈ wl, deletableIn g0 id) →
      (∀ id ∈ del, deletableIn g0 id) →
      ∀ id ∈ (runDceAux dryRun fuel g wl del cnt).2.1, deletableIn g0 id := by
  induction fuel with
  | zero => intro g wl del cnt _ _ hdel id hid; exact hdel id hid
  | succ fuel ih =>
      intro g wl del cnt hsub hwl hdel id hid
      cases wl with
      | nil => exact hdel id hid
      | cons node rest =>
          rw [runDceAux] at hid
          refine ih _ _ _ _ ?_ ?_ ?_ id hid
          · intro d hd
            by_cases hdry : dryRun
            · simp only [hdry, if_true] at hd; exact hsub d hd
            · simp only [hdry, if_false] at hd
              exact hsub d (removeNode_subset g node d hd)
          · intro x hx
            rcases List.mem_append.mp hx with h | h
            · exact hwl x (List.mem_cons_of_mem _ h)
            · exact pushes_deletable hsub _ x h
          · intro x hx
            rcases List.mem_append.mp hx with h | h
            · exact hdel x h
            · have : x = node := by simpa using h
              subst this
              exact hwl x (List.mem_cons_self _ _)

theorem runDceAux_keeps_nondeletable (g0 : Graph)
    (hnodup : (g0.nodes.map (fun d => d.id)).Nodup) (dryRun : Bool)
    (fuel : Nat) :
    ∀ g wl del cnt,
      (∀ d ∈ g.nodes, d ∈ g0.nodes) →
      (∀ id ∈ wl, deletableIn g0 id) →
      ∀ d ∈ g.nodes, isDeletable d = false →
        d ∈ (runDceAux dryRun fuel g wl del cnt).1.nodes := by
  induction fuel with
  | zero => intro g wl del cnt _ _ d hd _; exact hd
  | succ fuel ih =>
      intro g wl del cnt hsub hwl d hd hnd
      cases wl with
      | nil => exact hd
      | cons node rest =>
          rw [runDceAux]
          have hsub' : ∀ x ∈ (if dryRun then g else removeNode g node).nodes,
              x ∈ g0.nodes := by
            intro x hx
            by_cases hdry : dryRun
            · simp only [hdry, if_true] at hx; exact hsub x hx
            · simp only [hdry, if_false] at hx
              exact hsub x (removeNode_subset g node x hx)
          refine ih _ _ _ _ hsub' ?_ d ?_ hnd
          · intro x hx
            rcases List.mem_append.mp hx with h | h
            · exact hwl x (List.mem_cons_of_mem _ h)
            · exact pushes_deletable hsub _ x h
          · by_cases hdry : dryRun
            · simpa [hdry] using hd
            · simp only [hdry, if_false]
              rw [removeNode]
              refine List.mem_filter.mpr ⟨hd, ?_⟩
              simp only [decide_eq_true_eq]
              intro hideq
              obtain ⟨d', hd'mem, hd'id, hd'del⟩ :=
                hwl node (List.mem_cons_self _ _)
              have : d = d' := by
                have hinj := List.inj_on_of_nodup_map hnodup
                exact hinj (hsub d hd) hd'mem (by rw [hideq, hd'id])
              rw [this, hd'del] at hnd
              cases hnd

/-- Initial worklist members of `RunDce` are deletable nodes of `g`. -/
theorem runDce_init_deletable (g : Graph) :
    ∀ id ∈ (g.nodes.filter (fun d =>
        (users g d.id).isEmpty && isDeletable d)).map (fun d => d.id),
      deletableIn g id := by
  intro id hid
  obtain ⟨d, hd, hdid⟩ := List.mem_map.mp hid
  have hcond := (List.mem_filter.mp hd).2
  exact ⟨d, (List.mem_filter.mp hd).1, hdid, Bool.and_elim_right hcond⟩

end Dce

section FoldMaxLemmas

variable {c : Nat → Nat}

theorem le_foldl_max_init (l : List Nat) (init : Nat) :
    init ≤ l.foldl (fun m u => max m (c u)) init := by
  induction l generalizing init with
  | nil => exact Nat.le_refl _
  | cons x xs ih =>
      exact Nat.le_trans (Nat.le_max_left _ _) (ih (max init (c x)))

theorem le_foldl_max_mem (l : List Nat) {x : Nat} (hx : x ∈ l) :
    ∀ init : Nat, c x ≤ l.foldl (fun m u => max m (c u)) init := by
  induction l with
  | nil => cases hx
  | cons y ys ih =>
      intro init
      rcases List.mem_cons.mp hx with h | h
      · subst h
        exact Nat.le_trans (Nat.le_max_right _ _)
          (le_foldl_max_init ys (max init (c x)))
      · exact ih h (max init (c y))

theorem foldl_max_le (l : List Nat) :
    ∀ init B : Nat, init ≤ B → (∀ x ∈ l, c x ≤ B) →
      l.foldl (fun m u => max m (c u)) init ≤ B := by
  induction l with
  | nil => exact fun _ _ h0 _ => h0
  | cons x xs ih =>
      intro init B h0 h
      exact ih (max init (c x)) B
        (Nat.max_le.mpr ⟨h0, h x (List.mem_cons_self _ _)⟩)
        (fun y hy => h y (List.mem_cons_of_mem _ hy))

end FoldMaxLemmas

theorem liftSchedule_feasible (f : SchedFunc) (lb ub : Nat → Nat)
    (cap clockPeriodPs : Nat) (c : Nat → Nat)
    (hclosed : ∀ n ∈ f.nodes, ∀ u ∈ f.users n, u ∈ f.nodes)
    (hub : ∀ n ∈ f.nodes, ub n ≤ cap)
    (hmc : schedFeasible f lb ub clockPeriodPs c) :
    lpFeasible f lb ub cap clockPeriodPs (liftSchedule f c) := by
  obtain ⟨hbounds, hprec, hpaths⟩ := hmc
  refine ⟨⟨hbounds, hprec, hpaths⟩, ?_, ?_, ?_⟩
  · intro n hn
    have hle : latestUse f c n ≤ c n + cap := by
      refine foldl_max_le _ _ _ (Nat.le_add_right _ _) ?_
      intro u hu
      have hu' : u ∈ f.nodes := hclosed n hn u hu
      exact Nat.le_trans (Nat.le_trans (hbounds u hu').2 (hub u hu'))
        (Nat.le_add_left _ _)
    exact Nat.sub_le_iff_le_add'.mpr hle
  · intro n hn u hu
    have h1 : c u ≤ latestUse f c n := le_foldl_max_mem _ hu _
    have h2 : c n ≤ latestUse f c n := le_foldl_max_init _ _
    calc c u ≤ latestUse f c n := h1
      _ = c n + (latestUse f c n - c n) := by omega
  · intro n _ himp
    have h : n = f.ret := himp
    subst h
    exact ⟨Nat.le_refl _, Nat.le_add_right _ _⟩

/-- The lifted schedule's objective is exactly the interior register count. -/
theorem liftSchedule_objective (f : SchedFunc) (c : Nat → Nat) :
    lpObjective f (liftSchedule f c) = countInteriorPipelineRegisters f c :=
  rfl

/-- C1: any optimal integral point of the SDC linear program has interior
pipeline-register bit-count at most that of any schedule satisfying the
same bounds, precedence and long-path constraints — in particular the
min-cut schedule. -/
theorem sdcRegistersLeMinCutRegisters (f : SchedFunc) (lb ub : Nat → Nat)
    (cap clockPeriodPs : Nat) (sdc : LPPoint) (cmc : Nat → Nat)
    (hclosed : ∀ n ∈ f.nodes, ∀ u ∈ f.users n, u ∈ f.nodes)
    (hub : ∀ n ∈ f.nodes, ub n ≤ cap)
    (hfeas : lpFeasible f lb ub cap clockPeriodPs sdc)
    (hopt : ∀ q : LPPoint, lpFeasible f lb ub cap clockPeriodPs q →
        lpObjective f sdc ≤ lpObjective f q)
    (hmc : schedFeasible f lb ub clockPeriodPs cmc) :
    countInteriorPipelineRegisters f sdc.cycle ≤
      countInteriorPipelineRegisters f cmc := by
  have h1 : countInteriorPipelineRegisters f sdc.cycle ≤ lpObjective f sdc := by
    apply List.sum_le_sum
    intro n hn
    have hlat : latestUse f sdc.cycle n ≤ sdc.cycle n + sdc.lifetime n := by
      refine foldl_max_le _ _ _ (Nat.le_add_right _ _) ?_
      intro u hu
      exact hfeas.2.2.1 n hn u hu
    exact Nat.mul_le_mul_left _ (by omega)
  have h2 := hopt (liftSchedule f cmc)
    (liftSchedule_feasible f lb ub cap clockPeriodPs cmc hclosed hub hmc)
  rw [liftSchedule_objective] at h2
  exact Nat.le_trans h1 h2

/-- Witness for C1: the comparison instantiated on the concrete two-node
function `sdcWitFunc` with all hypotheses discharged. -/
theorem sdcRegistersLeMinCutRegisters_witness :
    countInteriorPipelineRegisters sdcWitFunc sdcWitPoint.cycle ≤
      countInteriorPipelineRegisters sdcWitFunc (fun _ => 0) :=
  sdcRegistersLeMinCutRegisters sdcWitFunc (fun _ => 0) (fun _ => 0) 0 0
    sdcWitPoint (fun _ => 0)
    (by decide) (by decide) (by decide)
    (fun q _ => Nat.zero_le _)
    (by decide)

/-- C4: whenever the requested schedule length is at most the maximum
delay-derived lower bound, `ConstructBounds` returns `ResourceExhausted`
naming the computed lower bound `max_lower_bound + 1` in its message. -/
theorem constructBounds_infeasible (f : SchedFunc) (clockPeriod len : Nat)
    (h : len ≤ f.maxLowerBound clockPeriod) :
    constructBounds f clockPeriod (some len) =
      .error (.resourceExhausted len (f.maxLowerBound clockPeriod + 1)) := by
  simp [constructBounds, h]

/-- Witness for C4: the 4-operator delay-1 chain requested in 2 stages at
clock period 1 is infeasible and the error reports computed lower bound 4. -/
theorem constructBounds_infeasible_witness :
    2 ≤ chain4.maxLowerBound 1 ∧
    constructBounds chain4 1 (some 2) =
      .error (.resourceExhausted 2 4) := by
  have hmax : chain4.maxLowerBound 1 = 3 := by decide
  have h := constructBounds_infeasible chain4 1 2 (by rw [hmax]; omega)
  rw [hmax] at h
  exact ⟨by rw [hmax]; omega, h⟩

/-- C6 counterexample: with stride 1 and trip count 5, the counter limit is
4 and the source sizes the counter with `MinBitCountUnsigned(4) = 3` bits,
not `ceil(log2 4) = 2` bits as the claim's formula states. -/
theorem stridedCounter_width_counterexample :
    addIndexCounter 1 5 = .ok ⟨3, 4, 1⟩ ∧ Nat.clog 2 4 = 2 := by
  constructor
  · simp [addIndexCounter, addStaticStridedCounter, minBitCountUnsigned,
      Nat.log2]
  · rw [Nat.clog]
    norm_num
    rw [Nat.clog]
    norm_num

/-- C6 (amended): for positive stride and trip count with positive limit
`((trip_count·stride - 1) / stride) · stride`, the index counter is an
up-counter by `stride` of `MinBitCountUnsigned(limit) = floor(log2 limit) + 1`
bits, cleared when `set_zero` (wired to `ready_in`, asserted in the Ready
state), loaded on `increment | set_zero` (`increment` wired to the
last-pipeline-cycle pulse), and its comparator asserts
`holds_max_inclusive_value` exactly when the counter equals the limit.
(With trip count 1 the limit is 0 and the source aborts on
`XLS_CHECK_GT(num_counter_bits, 0)`.) -/
theorem stridedCounter_spec (stride tripCount : Nat)
    (hs : 0 < stride) (ht : 0 < tripCount)
    (hlim : 0 < ((tripCount * stride - 1) / stride) * stride) :
    ∃ c : StridedCounter,
      addIndexCounter stride tripCount = .ok c ∧
      c.maxInclusiveValue = ((tripCount * stride - 1) / stride) * stride ∧
      c.numCounterBits = Nat.log2 c.maxInclusiveValue + 1 ∧
      c.stride = stride ∧
      (∀ cur : Nat, c.next true cur = 0) ∧
      (∀ cur : Nat, c.next false cur = cur + stride) ∧
      (StridedCounter.loadEnable true false = true ∧
        StridedCounter.loadEnable false true = true ∧
        StridedCounter.loadEnable false false = false) ∧
      (∀ cur : Nat, c.holdsMax cur = true ↔ cur = c.maxInclusiveValue) := by
  have hv : 0 < stride * tripCount := Nat.mul_pos hs ht
  have hmodadd : (stride * tripCount - 1) % stride +
      (stride * tripCount - 1) / stride * stride = stride * tripCount - 1 :=
    Nat.mod_add_div' _ _
  have hcomm : stride * tripCount = tripCount * stride := Nat.mul_comm _ _
  have hmax : stride * tripCount - 1 - (stride * tripCount - 1) % stride =
      ((tripCount * stride - 1) / stride) * stride := by
    rw [← hcomm]; omega
  have hpos : 0 < stride * tripCount - 1 - (stride * tripCount - 1) % stride := by
    rw [hmax]; exact hlim
  refine ⟨⟨minBitCountUnsigned (stride * tripCount - 1 -
      (stride * tripCount - 1) % stride),
      stride * tripCount - 1 - (stride * tripCount - 1) % stride, stride⟩,
    ?_, ?_, ?_, rfl, fun _ => rfl, fun _ => rfl,
    ⟨rfl, rfl, rfl⟩, ?_⟩
  · rw [addIndexCounter, addStaticStridedCounter]
    have h1 : ¬ (stride * tripCount ≤ 0) := by omega
    have h2 : ¬ (stride ≤ 0) := by omega
    simp only [h1, if_false, h2]
    have h3 : ¬ (minBitCountUnsigned (stride * tripCount - 1 -
        (stride * tripCount - 1) % stride) ≤ 0) := by
      rw [minBitCountUnsigned]
      simp only [Nat.ne_of_gt hpos, if_false]
      omega
    simp only [h3, if_false]
  · exact hmax
  · simp only [minBitCountUnsigned, Nat.ne_of_gt hpos, if_false]
  · intro cur
    simp [StridedCounter.holdsMax]

/-- Witness for C6 (amended): stride 1, trip count 4: limit 3, a 2-bit
counter. -/
theorem stridedCounter_spec_witness :
    0 < 1 ∧ 0 < 4 ∧ 0 < ((4 * 1 - 1) / 1) * 1 ∧
    ∃ c : StridedCounter,
      addIndexCounter 1 4 = .ok c ∧
      c.maxInclusiveValue = ((4 * 1 - 1) / 1) * 1 ∧
      c.numCounterBits = Nat.log2 c.maxInclusiveValue + 1 := by
  refine ⟨by omega, by omega, by omega, ?_⟩
  obtain ⟨c, h1, h2, h3, _⟩ := stridedCounter_spec 1 4 (by omega) (by omega)
    (by omega)
  exact ⟨c, h1, h2, h3⟩

/-- C9 (amended): `RunDce` never deletes nor reports a node that has an
implicit use or a side-effecting op; with `dry_run` set it removes no node
from the function; the reported dry-run set consists of deletable nodes but
can be a proper subset of what a non-dry run removes (see the
counterexample). -/
theorem runDce_safety (g : Dce.Graph)
    (hnodup : (g.nodes.map (fun d => d.id)).Nodup) :
    (∀ d ∈ g.nodes, Dce.isDeletable d = false →
        d ∈ (Dce.runDce g false).1.nodes) ∧
    (Dce.runDce g true).1 = g ∧
    (∀ dryRun : Bool, ∀ id ∈ (Dce.runDce g dryRun).2.1,
        Dce.deletableIn g id) := by
  refine ⟨?_, ?_, ?_⟩
  · intro d hd hnd
    exact Dce.runDceAux_keeps_nondeletable g hnodup false _ g _ [] 0
      (fun x hx => hx) (Dce.runDce_init_deletable g) d hd hnd
  · exact Dce.runDceAux_dry_graph_eq _ g _ [] 0
  · intro dryRun id hid
    exact Dce.runDceAux_deleted_deletable g dryRun _ g _ [] 0
      (fun x hx => hx) (Dce.runDce_init_deletable g)
      (fun x hx => absurd hx (List.not_mem_nil x)) id hid

/-- Witness for C9 (amended): the safety theorem applied to the concrete
graph `exG`. -/
theorem runDce_safety_witness :
    (Dce.runDce Dce.exG true).1 = Dce.exG ∧
    ∀ id ∈ (Dce.runDce Dce.exG false).2.1, Dce.deletableIn Dce.exG id := by
  have h := runDce_safety Dce.exG (by decide)
  exact ⟨h.2.1, h.2.2 false⟩

theorem exceptBind_ok {α β ε : Type} {x : Except ε α} {f : α → Except ε β}
    {b : β} (h : (x >>= f) = .ok b) : ∃ a, x = .ok a ∧ f a = .ok b := by
  cases x with
  | ok a => exact ⟨a, rfl, h⟩
  | error e => simp [Bind.bind, Except.bind] at h

namespace P5

/-- C2 (amended): whenever `LoweringTransform` runs to completion with
verification enabled, the resulting AST contains no `FieldAccess`, no
`ArrIndex`, no `NameRef`, no nested `BitSlice` and no `_valid`/`_valid_set`
call (nor a block directly in a block or an `if` directly in an `if`'s
then-block), and every `FakeVarDef` collected during lowering has a
resolved (but not necessarily positive) width. -/
theorem loweringTransform_invariants (m : Module) (delim : String)
    (m' : Module) (info : LoweringInfo)
    (h : loweringTransform m delim true = .ok (m', info)) :
    (∀ e ∈ m'.body.allExprs,
        e.isFieldAccess = false ∧ e.isArrIndex = false ∧
        e.isNameRef = false ∧ e.isNestedSlice = false ∧
        e.isValidCall = false) ∧
    (∀ s ∈ m'.body.allStmts,
        s.isBlockInBlock = false ∧ s.isIfInIfThen = false) ∧
    (∀ n ∈ info.allDefs,
        ∃ d, lookupDef m'.defs n = some d ∧ d.size.isSome = true) := by
  rw [loweringTransform] at h
  obtain ⟨a1, _, h⟩ := exceptBind_ok h
  obtain ⟨b1, st1⟩ := a1
  obtain ⟨a2, _, h⟩ := exceptBind_ok h
  obtain ⟨b2, st2⟩ := a2
  obtain ⟨a3, _, h⟩ := exceptBind_ok h
  obtain ⟨b3, st3⟩ := a3
  obtain ⟨a4, _, h⟩ := exceptBind_ok h
  obtain ⟨b4, st4⟩ := a4
  obtain ⟨b6, _, h⟩ := exceptBind_ok h
  obtain ⟨b7, _, h⟩ := exceptBind_ok h
  simp only at h
  cases hv : verifyLowered b7 with
  | false => rw [hv] at h; simp at h
  | true =>
      rw [hv] at h
      simp only [if_true] at h
      cases hsz : allCollectedDefsHaveSize st4.1
          (LoweringInfo.allDefs ⟨st1.2, st2.2, st3.2, st4.2⟩) with
      | false => rw [hsz] at h; simp at h
      | true =>
          rw [hsz] at h
          simp only [if_true, Except.ok.injEq, Prod.mk.injEq] at h
          obtain ⟨hm, hi⟩ := h
          subst hm; subst hi
          refine ⟨?_, ?_, ?_⟩
          · intro e he
            have hv' := hv
            rw [verifyLowered, Bool.and_eq_true, List.all_eq_true,
              List.all_eq_true] at hv'
            have := hv'.1 e he
            simp only [Bool.and_eq_true, Bool.not_eq_true'] at this
            exact ⟨this.1.1.1.1, this.1.1.1.2, this.1.2, this.2, this.1.1.2⟩
          · intro s hs
            have hv' := hv
            rw [verifyLowered, Bool.and_eq_true, List.all_eq_true,
              List.all_eq_true] at hv'
            have := hv'.2 s hs
            simp only [Bool.and_eq_true, Bool.not_eq_true'] at this
            exact this
          · intro n hn
            rw [allCollectedDefsHaveSize, List.all_eq_true] at hsz
            have := hsz n hn
            cases hl : lookupDef st4.1 n with
            | none => rw [hl] at this; simp at this
            | some d =>
                rw [hl] at this
                exact ⟨d, rfl, this⟩

/-- Witness for C2 (amended): the invariants extracted from the completed
lowering of the nested-slice example module. -/
theorem loweringTransform_invariants_witness :
    ∃ (m' : Module) (info : LoweringInfo),
      loweringTransform exC3Module "." true = .ok (m', info) ∧
      ∀ e ∈ m'.body.allExprs,
        e.isFieldAccess = false ∧ e.isArrIndex = false ∧
        e.isNameRef = false ∧ e.isNestedSlice = false ∧
        e.isValidCall = false := by
  have h : loweringTransform exC3Module "." true =
      .ok (⟨.block "top"
              [.assign (.varRef "x") (.bitSlice (.varRef "a") 39 30)],
            [⟨"x", some 60, true⟩, ⟨"a", some 60, true⟩]⟩,
           ⟨[], [], [], ["x", "a"]⟩) := rfl
  exact ⟨_, _, h,
    (loweringTransform_invariants exC3Module "." _ _ h).1⟩

/-- C2 counterexample: lowering the module `exC2Module` (a name annotated
with size 0) completes with verification enabled, yet the collected def
`x` has resolved width 0 — not a positive width as the claim states. -/
theorem loweringTransform_zero_width_cx :
    ∃ (m' : Module) (info : LoweringInfo),
      loweringTransform exC2Module "." true = .ok (m', info) ∧
      "x" ∈ info.allDefs ∧
      lookupDef m'.defs "x" = some ⟨"x", some 0, true⟩ ∧
      ¬ 0 < (Option.getD (some 0) 0 : Nat) := by
  refine ⟨⟨.block "top" [.assign (.varRef "x") (.intLiteral 1 64 none)],
      [⟨"x", some 0, true⟩]⟩, ⟨[], [], [], ["x"]⟩, rfl, ?_, rfl, by decide⟩
  simp [LoweringInfo.allDefs]

/-- C3: a nested bit-slice `a[h1:l1][h2:l2]` satisfying the precondition
`h2-l2+1 <= h1-l1+1` and `h2 < h1-l1+1` is rewritten by one
`NestedSliceElimation` step to `a[l1+h2 : l1+l2]`; precondition violations
are fatal; and iterating to the fixed point inside `LoweringTransform`,
the input `x = a[59:10][39:20][9:0]` with `width(a) = 60` lowers to the
single slice `BitSlice(a, 39, 30)`. -/
theorem nestedSliceElim_spec (itgt : Expr) (imax imin omax omin : Nat) :
    ((omax - omin + 1 ≤ imax - imin + 1 ∧ omax < imax - imin + 1) →
      nsStepExpr (.bitSlice (.bitSlice itgt imax imin) omax omin) =
        .ok (.bitSlice itgt (imin + omax) (imin + omin), true)) ∧
    (¬(omax - omin + 1 ≤ imax - imin + 1 ∧ omax < imax - imin + 1) →
      nsStepExpr (.bitSlice (.bitSlice itgt imax imin) omax omin) =
        .error "NestedSliceElimation: precondition violated") ∧
    loweringTransform exC3Module "." true =
      .ok (⟨.block "top"
              [.assign (.varRef "x") (.bitSlice (.varRef "a") 39 30)],
            [⟨"x", some 60, true⟩, ⟨"a", some 60, true⟩]⟩,
           ⟨[], [], [], ["x", "a"]⟩) := by
  refine ⟨?_, ?_, rfl⟩
  · intro hpre
    rw [nsStepExpr]
    rw [if_pos hpre]
  · intro hpre
    rw [nsStepExpr]
    simp only [if_neg hpre]

/-- Witness for C3: one flattening step on `a[59:10][39:20]` yields
`a[49:30]`. -/
theorem nestedSliceElim_spec_witness :
    nsStepExpr (.bitSlice (.bitSlice (.varRef "a") 59 10) 39 20) =
      .ok (.bitSlice (.varRef "a") 49 30, true) :=
  (nestedSliceElim_spec (.varRef "a") 59 10 39 20).1 (by omega)

theorem changeSize_width (v : IRNode) (n : Nat) :
    (changeSize v n).width = n := by
  rw [changeSize]
  rcases Nat.lt_trichotomy v.width n with h | h | h
  · rw [if_neg (Nat.ne_of_lt h), if_pos h]; rfl
  · rw [if_pos h, h]
  · rw [if_neg (Nat.ne_of_gt h), if_neg (Nat.not_lt_of_gt h)]; rfl

/-- C8 counterexample: converting a logical-and whose operand values have
widths 8 and 1 emits `And` of two 1-bit `Ne`-against-zero comparisons; the
narrower operand is not zero-extended to the wider width. -/
theorem emitBinaryOp_logical_cx :
    emitBinaryOp .logicalAnd (.param "a" 8) (.param "b" 1) =
      .ok (.andOp [.ne (.param "a" 8) (.literal 8 0),
                   .ne (.param "b" 1) (.literal 1 0)]) ∧
    IRNode.beq
      (.andOp [.ne (.param "a" 8) (.literal 8 0),
               .ne (.param "b" 1) (.literal 1 0)])
      (.andOp [.param "a" 8, .zeroExt (.param "b" 1) 8]) = false :=
  ⟨rfl, by decide⟩

/-- C8 (amended): for a binary operator other than the shifts and the
logical and/or, the narrower operand value is zero-extended to the wider
width (via `ChangeSize`) before the operator node is emitted; left/right
shifts first resize the left operand to 64 bits (zero-extending when
narrower, truncating when wider); logical and/or instead compare each
operand against zero and combine the 1-bit results. -/
theorem emitBinaryOp_width_promotion (op : OpKind) (lv rv : IRNode) :
    emitBinaryOp .leftShift lv rv = .ok (.shll (changeSize lv 64) rv) ∧
    emitBinaryOp .rightShift lv rv = .ok (.shrl (changeSize lv 64) rv) ∧
    (changeSize lv 64).width = 64 ∧
    emitBinaryOp .logicalAnd lv rv =
      .ok (.andOp [.ne lv (.literal lv.width 0),
                   .ne rv (.literal rv.width 0)]) ∧
    emitBinaryOp .logicalOr lv rv =
      .ok (.orOp [.ne lv (.literal lv.width 0),
                  .ne rv (.literal rv.width 0)]) ∧
    (¬(op = .leftShift ∨ op = .rightShift) →
     ¬(op = .logicalAnd ∨ op = .logicalOr) →
      emitBinaryOp op lv rv =
        binOpSwitch op
          (if rv.width < lv.width then [lv, changeSize rv lv.width]
           else [changeSize lv rv.width, rv])) ∧
    (lv.width < rv.width → changeSize lv rv.width = .zeroExt lv rv.width) ∧
    (rv.width < lv.width → changeSize rv lv.width = .zeroExt rv lv.width) ∧
    (lv.width = rv.width →
      changeSize lv rv.width = lv ∧ changeSize rv lv.width = rv) := by
  refine ⟨rfl, rfl, changeSize_width lv 64, rfl, rfl, ?_, ?_, ?_, ?_⟩
  · intro h1 h2
    rw [emitBinaryOp, if_neg h1, if_neg h2]
  · intro h
    rw [changeSize, if_neg (Nat.ne_of_lt h), if_pos h]
  · intro h
    rw [changeSize, if_neg (Nat.ne_of_lt h), if_pos h]
  · intro h
    constructor
    · rw [changeSize, if_pos h]
    · rw [changeSize, if_pos h.symm]

/-- Witness for C8 (amended): adding 8-bit and 4-bit operands zero-extends
the 4-bit one to 8 bits before the `Add`. -/
theorem emitBinaryOp_width_promotion_witness :
    emitBinaryOp .plus (.param "a" 8) (.param "b" 4) =
      .ok (.add (.param "a" 8) (.zeroExt (.param "b" 4) 8)) := by
  have h := emitBinaryOp_width_promotion .plus (.param "a" 8) (.param "b" 4)
  have h5 := h.2.2.2.2.2.1 (by decide) (by decide)
  rw [h5]
  rfl

theorem tryUpdateSize_ge (cur : Option Nat) (n : Nat) :
    n ≤ (tryUpdateSize cur n).getD 0 := by
  cases cur with
  | none => simp [tryUpdateSize]
  | some s =>
      rw [tryUpdateSize]
      split
      · simp; omega
      · simp

theorem lookupDef_updateDefSize (v : String) (n : Nat) :
    ∀ (defs : List FakeVarDef) (d : FakeVarDef),
      lookupDef defs v = some d →
      lookupDef (updateDefSize defs v n) v =
        some { d with size := tryUpdateSize d.size n } := by
  intro defs
  induction defs with
  | nil => intro d hd; simp [lookupDef] at hd
  | cons x xs ih =>
      intro d hd
      rw [lookupDef] at hd
      rw [updateDefSize, List.map_cons, lookupDef]
      by_cases hx : (x.name == v) = true
      · rw [if_pos hx]
        simp only [List.find?, hx, cond_true] at hd ⊢
        injection hd with hd
        subst hd
        rfl
      · rw [if_neg hx]
        simp only [List.find?, hx, cond_false] at hd ⊢
        have := ih d hd
        rw [updateDefSize, lookupDef] at this
        exact this

/-- C10: converting a `LongIntLiteral` of `w` 64-bit words emits a
`Literal` whose bit width is `w` — the number of words, not `64·w` — and
whose value is 0 regardless of the words' contents, while
`VarSizeInference` separately forces any variable assigned such a literal
to a width of at least `64·w`. -/
theorem longIntLiteral_conversion (an : Analysis) (fuel : Nat)
    (ctx : List IRNode)
    (rcs : List (List IRNode)) (words : List Nat)
    (defs : List FakeVarDef) (v : String) (d : FakeVarDef)
    (hd : lookupDef defs v = some d) :
    visitExpr an (fuel + 1) ⟨[], rcs⟩ ctx (.longIntLiteral words) =
      .ok (.literal words.length 0,
        ⟨[(.longIntLiteral words, .literal words.length 0)], rcs⟩) ∧
    (0 < words.length → words.length < 64 * words.length) ∧
    vsiStmt defs (.assign (.varRef v) (.longIntLiteral words)) =
      .ok (updateDefSize defs v (words.length * 64)) ∧
    ∃ d', lookupDef (updateDefSize defs v (words.length * 64)) v = some d' ∧
      words.length * 64 ≤ d'.size.getD 0 := by
  refine ⟨rfl, by omega, rfl, ?_⟩
  refine ⟨_, lookupDef_updateDefSize v _ defs d hd, ?_⟩
  exact tryUpdateSize_ge d.size _

theorem exceptMapM_ok_length {α β : Type} (f : α → Except String β) :
    ∀ (l : List α) (ys : List β), l.mapM f = .ok ys → ys.length = l.length := by
  intro l
  induction l with
  | nil =>
      intro ys h
      rw [List.mapM_nil] at h
      injection h with h
      subst h
      rfl
  | cons x xs ih =>
      intro ys h
      rw [List.mapM_cons] at h
      obtain ⟨y, _, h⟩ := exceptBind_ok h
      obtain ⟨ys', hys, h⟩ := exceptBind_ok h
      injection h with h
      subst h
      simp [ih ys' hys]

theorem exceptMapM_ok_mem {α β : Type} (f : α → Except String β) :
    ∀ (l : List α) (ys : List β), l.mapM f = .ok ys →
      ∀ x ∈ l, ∃ y, f x = .ok y := by
  intro l
  induction l with
  | nil => intro ys _ x hx; cases hx
  | cons z zs ih =>
      intro ys h x hx
      rw [List.mapM_cons] at h
      obtain ⟨y, hy, h⟩ := exceptBind_ok h
      obtain ⟨ys', hys, _⟩ := exceptBind_ok h
      rcases List.mem_cons.mp hx with hxz | hxz
      · subst hxz; exact ⟨y, hy⟩
      · exact ih ys' hys x hxz

theorem evalExitBits_fold_props (an : Analysis) :
    ∀ (pairs : List (Expr × List IRNode)) (acc0 : List IRNode)
      (st0 : ConvState) (bits : List IRNode) (stf : ConvState),
      pairs.foldlM
        (fun (acc : List IRNode × ConvState) pair => do
          let r ← visitExpr an (exprDepth pair.1) acc.2 pair.2 pair.1
          if r.1.width = 1 then Except.ok (acc.1 ++ [r.1], r.2)
          else Except.error "exit predicate is not 1 bit")
        (acc0, st0) = .ok (bits, stf) →
      bits.length = acc0.length + pairs.length ∧
      (∀ b ∈ bits, b ∈ acc0 ∨ b.width = 1) := by
  intro pairs
  induction pairs with
  | nil =>
      intro acc0 st0 bits stf h
      rw [List.foldlM_nil] at h
      injection h with h
      injection h with h1 h2
      subst h1
      exact ⟨rfl, fun b hb => Or.inl hb⟩
  | cons p ps ih =>
      intro acc0 st0 bits stf h
      rw [List.foldlM_cons] at h
      obtain ⟨a, ha, h⟩ := exceptBind_ok h
      obtain ⟨⟨b, stb⟩, _, ha⟩ := exceptBind_ok ha
      by_cases hw : b.width = 1
      · rw [if_pos hw] at ha
        injection ha with ha
        subst ha
        have hrec := ih _ _ _ _ h
        refine ⟨?_, ?_⟩
        · have h1 := hrec.1
          simp at h1 ⊢
          omega
        · intro x hx
          rcases hrec.2 x hx with hmem | h1
          · rcases List.mem_append.mp hmem with h0 | hb1
            · exact Or.inl h0
            · have : x = b := by simpa using hb1
              subst this
              exact Or.inr hw
          · exact Or.inr h1
      · rw [if_neg hw] at ha
        simp at ha

theorem mergeCases_props (retCtxs : List (List IRNode))
    (fallthrough : List IRNode) (gi : Nat) (cases : List IRNode)
    (h : mergeCases retCtxs fallthrough gi = .ok cases) :
    cases.length = retCtxs.length + 1 ∧
    ∃ fallv, ctxAt fallthrough gi = .ok fallv ∧
      cases.getLast? = some fallv := by
  rw [mergeCases] at h
  obtain ⟨exitVals, hev, h⟩ := exceptBind_ok h
  obtain ⟨fallv, hf, h⟩ := exceptBind_ok h
  injection h with h
  subst h
  refine ⟨?_, fallv, hf, List.getLast?_concat _⟩
  rw [List.length_append, exceptMapM_ok_length _ _ _ hev]
  rfl

theorem exceptMapM_ok_mem_rev {α β : Type} (f : α → Except String β) :
    ∀ (l : List α) (ys : List β), l.mapM f = .ok ys →
      ∀ y ∈ ys, ∃ x ∈ l, f x = .ok y := by
  intro l
  induction l with
  | nil =>
      intro ys h y hy
      rw [List.mapM_nil] at h
      injection h with h
      subst h
      cases hy
  | cons z zs ih =>
      intro ys h y hy
      rw [List.mapM_cons] at h
      obtain ⟨b, hb, h⟩ := exceptBind_ok h
      obtain ⟨ys', hys, h⟩ := exceptBind_ok h
      injection h with h
      subst h
      rcases List.mem_cons.mp hy with hyz | hyz
      · subst hyz
        exact ⟨z, List.mem_cons_self _ _, hb⟩
      · obtain ⟨x, hx, hfx⟩ := ih ys' hys y hyz
        exact ⟨x, List.mem_cons_of_mem _ hx, hfx⟩

/-- C5: whenever `Build` succeeds, the body was a statement block; each
return's recorded context was matched with a hit predicate (their counts
agree); every hit predicate evaluates to a 1-bit value and there is one
per exit; and the result is a `Tuple` with one entry per global variable,
each entry a `OneHotSelect` keyed by the MSB-priority `OneHot` of the
`Concat` of the hit-predicate bits whose case list is the per-return
values followed, as the last case, by the no-return-fired fallthrough
value. -/
theorem build_exit_merge (body : Stmt) (an : Analysis) (r : IRNode)
    (h : build body an = .ok r) :
    ∃ name stmts inputCtx ctxNoRet st1 globalIdx bits stf outputs,
      body = .block name stmts ∧
      mkInputCtx an = .ok inputCtx ∧
      visitStmtList an ⟨[], []⟩ inputCtx stmts = .ok (ctxNoRet, st1) ∧
      an.globalVars.mapM (fun d => defToIdx an d.name) = .ok globalIdx ∧
      st1.retCtxs.length = an.exits.length ∧
      evalExitBits an an.exits st1.retCtxs st1 = .ok (bits, stf) ∧
      bits.length = an.exits.length ∧
      (∀ b ∈ bits, b.width = 1) ∧
      outputs.length = an.globalVars.length ∧
      (∀ o ∈ outputs, ∃ gi cs fallv,
        gi ∈ globalIdx ∧
        mergeCases st1.retCtxs ctxNoRet gi = .ok cs ∧
        cs.length = st1.retCtxs.length + 1 ∧
        ctxAt ctxNoRet gi = .ok fallv ∧
        cs.getLast? = some fallv ∧
        o = .oneHotSelect (.oneHot (.concat bits) true) cs) ∧
      r = .tuple outputs := by
  rw [build] at h
  obtain ⟨inputCtx, hin, h⟩ := exceptBind_ok h
  cases body with
  | block name stmts =>
      obtain ⟨res, hvs, h⟩ := exceptBind_ok h
      obtain ⟨globalIdx, hgi, h⟩ := exceptBind_ok h
      by_cases hc : res.2.retCtxs.length = an.exits.length
      · rw [if_pos hc] at h
        obtain ⟨eb, heb, h⟩ := exceptBind_ok h
        obtain ⟨outputs, ho, h⟩ := exceptBind_ok h
        injection h with h
        have heb' : evalExitBits an an.exits res.2.retCtxs res.2 =
            .ok (eb.1, eb.2) := heb
        have hfold := by
          rw [evalExitBits] at heb'
          exact evalExitBits_fold_props an _ _ _ _ _ heb'
        refine ⟨name, stmts, inputCtx, res.1, res.2, globalIdx, eb.1, eb.2,
          outputs, rfl, hin, hvs, hgi, hc, heb, ?_, ?_, ?_, ?_, h.symm⟩
        · rw [hfold.1]
          simp [hc]
        · intro b hb
          rcases hfold.2 b hb with hb0 | hb1
          · cases hb0
          · exact hb1
        · rw [exceptMapM_ok_length _ _ _ ho, exceptMapM_ok_length _ _ _ hgi]
        · intro o hoo
          obtain ⟨gi, hgim, hf⟩ := exceptMapM_ok_mem_rev _ _ _ ho o hoo
          obtain ⟨cs, hmc, hf⟩ := exceptBind_ok hf
          injection hf with hf
          obtain ⟨hlen, fallv, hfall, hlast⟩ := mergeCases_props _ _ _ _ hmc
          exact ⟨gi, cs, fallv, hgim, hmc, hlen, hfall, hlast, hf.symm⟩
      · rw [if_neg hc] at h
        exact absurd h (by simp)
  | assign l r' => exact absurd h (by simp)
  | ifStmt c t => exact absurd h (by simp)
  | ifElse c t e => exact absurd h (by simp)
  | exprEval e => exact absurd h (by simp)
  | ret => exact absurd h (by simp)
  | nop => exact absurd h (by simp)

/-- Witness for C5: the `c`-guarded-return scenario.  The analysis and
converter run to completion (`rfl`), and `build_exit_merge` applies at the
resulting concrete output. -/
theorem build_exit_merge_witness :
    mkAnalysis exC5Body exC5Defs = .ok exC5An ∧
    build exC5Body exC5An = .ok exC5Result ∧
    (∃ name stmts inputCtx ctxNoRet st1 globalIdx bits stf outputs,
      exC5Body = .block name stmts ∧
      mkInputCtx exC5An = .ok inputCtx ∧
      visitStmtList exC5An ⟨[], []⟩ inputCtx stmts = .ok (ctxNoRet, st1) ∧
      exC5An.globalVars.mapM (fun d => defToIdx exC5An d.name) =
        .ok globalIdx ∧
      st1.retCtxs.length = exC5An.exits.length ∧
      evalExitBits exC5An exC5An.exits st1.retCtxs st1 = .ok (bits, stf) ∧
      bits.length = exC5An.exits.length ∧
      (∀ b ∈ bits, b.width = 1) ∧
      outputs.length = exC5An.globalVars.length ∧
      (∀ o ∈ outputs, ∃ gi cs fallv,
        gi ∈ globalIdx ∧
        mergeCases st1.retCtxs ctxNoRet gi = .ok cs ∧
        cs.length = st1.retCtxs.length + 1 ∧
        ctxAt ctxNoRet gi = .ok fallv ∧
        cs.getLast? = some fallv ∧
        o = .oneHotSelect (.oneHot (.concat bits) true) cs) ∧
      exC5Result = .tuple outputs) :=
  ⟨rfl, rfl, build_exit_merge exC5Body exC5An exC5Result rfl⟩

/-- C7: a `SLICE` node whose bounds `OP1` and `OP2` both lack an `INT`
payload is the full slice.  In expression position `ParseExpr` removes
the slice and parses the sliced expression `OP0`, as claimed; but in
lvalue position `ParseLvalue` recurses into the bound `OP1` instead of
`OP0`, contradicting the claim and the code's own comment
`expr[:] <=> expr` — the parse of a bound is not the parse of the
sliced expression. -/
theorem parse_full_slice (fuel : Nat) (j : Json)
    (hobj : j.isObject = true) (hty : j.containsKey "TYNAME" = true)
    (hname : (j.atKey "TYNAME").getStr = "SLICE")
    (h1 : (j.atKey "OP1").containsKey "INT" = false)
    (h2 : (j.atKey "OP2").containsKey "INT" = false) :
    parseExpr (fuel + 1) j = parseExpr fuel (j.atKey "OP0") ∧
    parseLvalue (fuel + 1) j = parseLvalue fuel (j.atKey "OP1") := by
  constructor
  · rw [parseExpr]
    simp [hobj, hty, hname, h1, h2]
  · rw [parseLvalue]
    simp [hobj, hty, hname, h1, h2]

/-- Witness for C7: on the full-slice lvalue `x[:]` (`exC7Json`), the
expression parse removes the slice and yields `NameRef x`, while the
lvalue parse — recursing into the bound — fails, even though the sliced
expression itself is a perfectly good lvalue. -/
theorem parse_full_slice_witness :
    (exC7Json.isObject = true ∧ exC7Json.containsKey "TYNAME" = true ∧
     (exC7Json.atKey "TYNAME").getStr = "SLICE" ∧
     (exC7Json.atKey "OP1").containsKey "INT" = false ∧
     (exC7Json.atKey "OP2").containsKey "INT" = false) ∧
    (parseExpr 3 exC7Json = parseExpr 2 (exC7Json.atKey "OP0") ∧
     parseLvalue 3 exC7Json = parseLvalue 2 (exC7Json.atKey "OP1")) ∧
    parseExpr 3 exC7Json = .ok (.nameRef "x" (some ⟨8, true⟩)) ∧
    parseLvalue 3 exC7Json =
      .error "Try parse a Lvalue from json, but not a supported expr type" ∧
    parseLvalue 2 (exC7Json.atKey "OP0") =
      .ok (.nameRef "x" (some ⟨8, true⟩)) :=
  ⟨⟨rfl, rfl, rfl, rfl, rfl⟩,
   parse_full_slice 2 exC7Json rfl rfl rfl rfl rfl,
   rfl, rfl, rfl⟩

/-- Witness for C10: a two-word long literal becomes a 2-bit zero literal
while the assigned variable's width is forced to at least 128. -/
theorem longIntLiteral_conversion_witness :
    visitExpr ⟨[], [], []⟩ 1 ⟨[], []⟩ [] (.longIntLiteral [1, 2]) =
      .ok (.literal 2 0,
        ⟨[(.longIntLiteral [1, 2], .literal 2 0)], []⟩) ∧
    ∃ d', lookupDef (updateDefSize [⟨"x", some 8, true⟩] "x" 128) "x" =
        some d' ∧ 128 ≤ d'.size.getD 0 := by
  have h := longIntLiteral_conversion ⟨[], [], []⟩ 0 [] [] [1, 2]
    [⟨"x", some 8, true⟩] "x" ⟨"x", some 8, true⟩ rfl
  exact ⟨h.1, h.2.2.2⟩

end P5

/-- C9 counterexample: on `exG` the real run removes nodes 2, 3 and 1, but
the dry run reports only 2 and 3 — not the same set, because the dry run
does not update user counts as it goes. -/
theorem runDce_dry_run_not_same_set :
    (Dce.runDce Dce.exG false).2.1 = [2, 3, 1] ∧
    (Dce.runDce Dce.exG true).2.1 = [2, 3] ∧
    1 ∈ (Dce.runDce Dce.exG false).2.1 ∧
    1 ∉ (Dce.runDce Dce.exG true).2.1 := by decide

end XlsEmb
